import Mathlib

/-!
# Verification of the gwyfile TLV codec (gwyfile/objects.py)

A shallow embedding of the Gwyddion `.gwy` object codec: the recursive
decoder `GwyObject.frombuffer` / `component_from_buffer`, the serializer
`GwyObject.serialize` / `serialize_component`, the typecode inference
`guess_typecode`, the `_gwyddion_types` registry, and the `GwyDataField`
data accessor.

Modelling conventions:
* a byte buffer is a `List Nat` of values `< 256`;
* a Python `str` is represented by its UTF-8 byte sequence (`.decode` is
  modelled by a validity check, `.encode` by the identity), and `len` of a
  decoded string is the number of non-continuation bytes;
* a Python `float` is represented by its raw 8-byte little-endian bit
  pattern, making "bit-exact" literal;
* any raised Python exception is collapsed into a single error outcome;
* the decoder is fuel-indexed because the source can genuinely loop
  (a component reporting size 0 leaves `buf` unchanged in the
  `while len(buf) > 0` loop of `frombuffer`).
-/

set_option maxHeartbeats 1000000

/-! ## Python byte-string primitives -/

/-- Clamp a (possibly negative) Python slice endpoint to `[0, n]`. -/
def pyIdx (n : Nat) (i : Int) : Nat :=
  if i < 0 then (max (i + n) 0).toNat else min i.toNat n

/-- Python slice `buf[i:j]`: negative indices count from the end, both
endpoints are clamped. -/
def pySlice (buf : List Nat) (i j : Int) : List Nat :=
  (buf.take (pyIdx buf.length j)).drop (pyIdx buf.length i)

/-- Python `buf[i:]`. -/
def pyTail (buf : List Nat) (i : Int) : List Nat :=
  pySlice buf i buf.length

/-- Python `bytes.find(c, start)`: least index `k ≥ start` with
`buf[k] = c`, and `-1` when there is none. -/
def pyFind (buf : List Nat) (c : Nat) (start : Int) : Int :=
  match (buf.drop (pyIdx buf.length start)).findIdx? (fun b => b == c) with
  | some k => ((pyIdx buf.length start + k : Nat) : Int)
  | none => -1

/-! ## struct pack/unpack (all little-endian) -/

/-- Little-endian value of a byte string. -/
def leVal : List Nat → Nat
  | [] => 0
  | b :: r => b + 256 * leVal r

/-- `struct.unpack('<I', ·)`: exactly 4 bytes required. -/
def unpackU32 (l : List Nat) : Option Nat :=
  if l.length = 4 then some (leVal l) else none

/-- Reinterpret an unsigned 32-bit value as signed. -/
def u32ToInt (u : Nat) : Int :=
  if u < 2147483648 then (u : Int) else (u : Int) - 4294967296

/-- Reinterpret an unsigned 64-bit value as signed. -/
def u64ToInt (u : Nat) : Int :=
  if u < 9223372036854775808 then (u : Int) else (u : Int) - 18446744073709551616

/-- `struct.unpack('<i', ·)`: exactly 4 bytes required. -/
def unpackI32 (l : List Nat) : Option Int := (unpackU32 l).map u32ToInt

/-- 8-byte little-endian read: exactly 8 bytes required. -/
def unpackU64 (l : List Nat) : Option Nat :=
  if l.length = 8 then some (leVal l) else none

/-- `struct.unpack('<q', ·)`: exactly 8 bytes required. -/
def unpackI64 (l : List Nat) : Option Int := (unpackU64 l).map u64ToInt

/-- Little-endian 4-byte encoding of `n % 2^32`. -/
def leBytes4 (n : Nat) : List Nat :=
  [n % 256, n / 256 % 256, n / 65536 % 256, n / 16777216 % 256]

/-- Little-endian 8-byte encoding of `n % 2^64`. -/
def leBytes8 (n : Nat) : List Nat :=
  [n % 256, n / 256 % 256, n / 65536 % 256, n / 16777216 % 256,
   n / 4294967296 % 256, n / 1099511627776 % 256,
   n / 281474976710656 % 256, n / 72057594037927936 % 256]

/-- `struct.pack('<I', n)`: raises unless `0 ≤ n < 2^32`. -/
def packU32 (n : Nat) : Option (List Nat) :=
  if n < 4294967296 then some (leBytes4 n) else none

/-- `struct.pack('<i', i)`: raises unless `-2^31 ≤ i < 2^31`. -/
def packI32 (i : Int) : Option (List Nat) :=
  if -2147483648 ≤ i ∧ i < 2147483648 then
    some (leBytes4 (i.emod 4294967296).toNat)
  else none

/-- `struct.pack('<q', i)`: raises unless `-2^63 ≤ i < 2^63`. -/
def packI64 (i : Int) : Option (List Nat) :=
  if -9223372036854775808 ≤ i ∧ i < 9223372036854775808 then
    some (leBytes8 (i.emod 18446744073709551616).toNat)
  else none

/-- `ndarray.astype('<i4')` per-element conversion: truncating two's
complement, never raises. -/
def truncI32 (i : Int) : List Nat := leBytes4 (i.emod 4294967296).toNat

/-- `ndarray.astype('<i8')` per-element conversion. -/
def truncI64 (i : Int) : List Nat := leBytes8 (i.emod 18446744073709551616).toNat

/-- Split a buffer into `n` consecutive chunks of `k` bytes each. -/
def takeChunks (k : Nat) : Nat → List Nat → List (List Nat)
  | 0, _ => []
  | n + 1, l => l.take k :: takeChunks k n (l.drop k)

/-- Read of a 4-byte little-endian signed array element. -/
def i32ofChunk (l : List Nat) : Int := u32ToInt (leVal l)

/-- Read of an 8-byte little-endian signed array element. -/
def i64ofChunk (l : List Nat) : Int := u64ToInt (leVal l)

/-! ## UTF-8 -/

/-- UTF-8 continuation byte. -/
def contB (b : Nat) : Bool := 128 ≤ b && b ≤ 191

/-- Strict UTF-8 validity, as checked by Python's `bytes.decode('utf-8')`
(no overlong forms, no surrogates, max U+10FFFF). -/
def validUtf8 : List Nat → Bool
  | [] => true
  | b :: r =>
    if b ≤ 127 then validUtf8 r
    else if 194 ≤ b && b ≤ 223 then
      match r with
      | c :: r2 => contB c && validUtf8 r2
      | [] => false
    else if b = 224 then
      match r with
      | c :: d :: r2 => (160 ≤ c && c ≤ 191) && contB d && validUtf8 r2
      | _ => false
    else if (225 ≤ b && b ≤ 236) || b = 238 || b = 239 then
      match r with
      | c :: d :: r2 => contB c && contB d && validUtf8 r2
      | _ => false
    else if b = 237 then
      match r with
      | c :: d :: r2 => (128 ≤ c && c ≤ 159) && contB d && validUtf8 r2
      | _ => false
    else if b = 240 then
      match r with
      | c :: d :: e :: r2 =>
        (144 ≤ c && c ≤ 191) && contB d && contB e && validUtf8 r2
      | _ => false
    else if 241 ≤ b && b ≤ 243 then
      match r with
      | c :: d :: e :: r2 => contB c && contB d && contB e && validUtf8 r2
      | _ => false
    else if b = 244 then
      match r with
      | c :: d :: e :: r2 =>
        (128 ≤ c && c ≤ 143) && contB d && contB e && validUtf8 r2
      | _ => false
    else false

/-- `len` of the decoded text of a valid UTF-8 byte sequence: the number of
non-continuation bytes (= number of code points). -/
def countCp (l : List Nat) : Nat :=
  (l.filter (fun b => !contB b)).length

/-- UTF-8 encoding of one code point, i.e. `chr(i).encode('utf-8')`
(raises for out-of-range values and surrogates). -/
def encodeCp (i : Int) : Option (List Nat) :=
  if 0 ≤ i ∧ i < 1114112 then
    let n := i.toNat
    if n < 128 then some [n]
    else if n < 2048 then some [192 + n / 64, 128 + n % 64]
    else if n < 55296 then some [224 + n / 4096, 128 + n / 64 % 64, 128 + n % 64]
    else if n < 57344 then none
    else if n < 65536 then some [224 + n / 4096, 128 + n / 64 % 64, 128 + n % 64]
    else some [240 + n / 262144, 128 + n / 4096 % 64, 128 + n / 64 % 64, 128 + n % 64]
  else none

/-- ASCII bytes of a string literal (used for the registry's type names). -/
def asciiBytes (s : String) : List Nat := s.data.map (fun c => c.toNat)

/-! ## The object tree model

`GwyObject` is an `OrderedDict` of components plus a `typecodes` dict; the
two are merged here into one ordered association list keyed by component
name, carrying the value and the recorded typecode (`none` when the
`typecodes` dict has no entry for the key). -/

mutual

/-- A component value, covering the runtime shapes `objects.py` handles. -/
inductive GVal : Type where
  | obj : GObj → GVal
  | str : List Nat → GVal
  | boolean : Bool → GVal
  | int : Int → GVal
  | double : List Nat → GVal
  | arrC : List (List Nat) → GVal
  | arrI : List Int → GVal
  | arrQ : List Int → GVal
  | arrD : List (List Nat) → GVal
  | ndarrF4 : Nat → GVal
  | strArr : List (List Nat) → GVal
  | objArr : GObjList → GVal

/-- One component: name, value, recorded typecode. -/
inductive GComp : Type where
  | mk : List Nat → GVal → Option Nat → GComp

inductive GCompList : Type where
  | nil : GCompList
  | cons : GComp → GCompList → GCompList

/-- A `GwyObject`: type name plus ordered components. -/
inductive GObj : Type where
  | mk : List Nat → GCompList → GObj

inductive GObjList : Type where
  | nil : GObjList
  | cons : GObj → GObjList → GObjList

end

def GComp.name : GComp → List Nat
  | .mk n _ _ => n

def GComp.value : GComp → GVal
  | .mk _ v _ => v

def GComp.tc : GComp → Option Nat
  | .mk _ _ t => t

def GObj.name : GObj → List Nat
  | .mk n _ => n

def GObj.comps : GObj → GCompList
  | .mk _ c => c

def GObjList.length : GObjList → Nat
  | .nil => 0
  | .cons _ rest => rest.length + 1

def GCompList.length : GCompList → Nat
  | .nil => 0
  | .cons _ rest => rest.length + 1

/-- Look up a component value by name (Python `self[k]`). -/
def GCompList.lookup : GCompList → List Nat → Option GVal
  | .nil, _ => none
  | .cons c rest, k => if c.name = k then some c.value else rest.lookup k

/-- `data[name] = v; typecodes[name] = t` on the merged ordered dict: an
existing key keeps its position, a new key is appended. -/
def odUpd (k : List Nat) (v : GVal) (t : Nat) : GCompList → GCompList
  | .nil => .cons (.mk k v (some t)) .nil
  | .cons c rest =>
    if c.name = k then .cons (.mk k v (some t)) rest else .cons c (odUpd k v t rest)

/-- `self[k] = v` alone (the `typecodes` dict untouched): an existing key
keeps its position and its recorded typecode, a new key is appended with no
typecode. -/
def odSet (k : List Nat) (v : GVal) : GCompList → GCompList
  | .nil => .cons (.mk k v none) .nil
  | .cons c rest =>
    if c.name = k then .cons (.mk k v c.tc) rest else .cons c (odSet k v rest)

/-- `self.typecodes.update({n: t for n ∈ names})` restricted to present
keys (entries for absent keys are unobservable through the component
surface that `serialize` and decoding use). -/
def setTc (names : List (List Nat)) (t : Nat) : GCompList → GCompList
  | .nil => .nil
  | .cons c rest =>
    .cons (if c.name ∈ names then .mk c.name c.value (some t) else c) (setTc names t rest)

/-- Deletion of the listed keys (`del self[k]`). -/
def dropNames (names : List (List Nat)) : GCompList → GCompList
  | .nil => .nil
  | .cons c rest =>
    if c.name ∈ names then dropNames names rest else .cons c (dropNames names rest)

/-- The keys of `_gwyddion_types`. -/
def registryNames : List (List Nat) :=
  [asciiBytes "GwyContainer", asciiBytes "GwyDataField", asciiBytes "GwySurface",
   asciiBytes "GwyBrick", asciiBytes "GwyGraphModel", asciiBytes "GwyGraphCurveModel",
   asciiBytes "GwySIUnit"]

/-- The wrapper construction step of `frombuffer`: `_gwyddion_types[name]`
is tried, and each registered class's `__init__` applied to the decoded
`(data, typecodes)` pair; a `KeyError` falls back to the generic
`GwyObject(name, data, typecodes)`.

Effects of the registered constructors on the component surface when
`data` is the decoded `OrderedDict`:
* `GwyContainer`, `GwySurface`, `GwySIUnit`: keep the components verbatim;
* `GwyDataField`: overrides the typecodes of `xres`/`yres` to `'i'` and of
  `xreal`/`yreal`/`xoff`/`yoff` to `'d'`;
* `GwyBrick`: same overriding for its nine resolution/extent/offset keys;
* `GwyGraphModel.__init__` never touches its `data` argument, so all
  decoded components are dropped;
* `GwyGraphCurveModel` assigns `None` to `point_type`, `point_size`,
  `line_type`, `line_size`, whose setters delete those keys. -/
def registryApply (name : List Nat) (comps : GCompList) : GObj :=
  if name = asciiBytes "GwyDataField" then
    .mk name (setTc [asciiBytes "xres", asciiBytes "yres"] 105
      (setTc [asciiBytes "xreal", asciiBytes "yreal", asciiBytes "xoff", asciiBytes "yoff"] 100 comps))
  else if name = asciiBytes "GwyBrick" then
    .mk name (setTc [asciiBytes "xres", asciiBytes "yres", asciiBytes "zres"] 105
      (setTc [asciiBytes "xreal", asciiBytes "yreal", asciiBytes "zreal",
              asciiBytes "xoff", asciiBytes "yoff", asciiBytes "zoff"] 100 comps))
  else if name = asciiBytes "GwyGraphModel" then
    .mk name .nil
  else if name = asciiBytes "GwyGraphCurveModel" then
    .mk name (dropNames [asciiBytes "point_type", asciiBytes "point_size",
                         asciiBytes "line_type", asciiBytes "line_size"] comps)
  else
    .mk name comps

/-! ## The decoder -/

/-- Outcome of running a piece of the Python decoder: a result, a raised
exception (of any class), or fuel exhaustion (possible non-termination). -/
inductive PRes (α : Type) : Type where
  | ok : α → PRes α
  | exn : PRes α
  | spin : PRes α

/-- The `'S'` element loop of `component_from_buffer`: `numitems` times,
`pos = endpos; endpos = buf.find(b'\0', pos); append(buf[pos:endpos]
.decode('utf-8')); endpos += 1`. -/
def sLoop (buf : List Nat) : Nat → Int → PRes (List (List Nat) × Int)
  | 0, endpos => .ok ([], endpos)
  | n + 1, endpos =>
    if !validUtf8 (pySlice buf endpos (pyFind buf 0 endpos)) then .exn
    else
      match sLoop buf n (pyFind buf 0 endpos + 1) with
      | .ok (items, e2) => .ok (pySlice buf endpos (pyFind buf 0 endpos) :: items, e2)
      | .exn => .exn
      | .spin => .spin

mutual

/-- `GwyObject.frombuffer(buf, return_size=True)` (objects.py lines 46-79):
read the NUL-terminated type name, the 4-byte length, decode components
from the declared body, construct the wrapper via `_gwyddion_types`, and
report `len(name) + 5 + size` as the consumed size. -/
def frombuffer : Nat → List Nat → PRes (GObj × Nat)
  | 0, _ => .spin
  | fuel + 1, buf =>
    if !validUtf8 (pySlice buf 0 (pyFind buf 0 0)) then .exn
    else
      match unpackU32 (pySlice buf (pyFind buf 0 0 + 1) (pyFind buf 0 0 + 5)) with
      | none => .exn
      | some size =>
        match frombufferLoop fuel
            (pySlice buf (pyFind buf 0 0 + 5) (pyFind buf 0 0 + 5 + (size : Int))) .nil with
        | .ok comps =>
          .ok (registryApply (pySlice buf 0 (pyFind buf 0 0)) comps,
            countCp (pySlice buf 0 (pyFind buf 0 0)) + 5 + size)
        | .exn => .exn
        | .spin => .spin

/-- The `while len(buf) > 0` loop of `frombuffer`: decode one component,
store it in `data`/`typecodes`, advance by the reported size. -/
def frombufferLoop : Nat → List Nat → GCompList → PRes GCompList
  | 0, _, _ => .spin
  | _ + 1, [], acc => .ok acc
  | fuel + 1, b :: rest, acc =>
    match component_from_buffer fuel (b :: rest) with
    | .ok (n, v, t, sz) => frombufferLoop fuel (pyTail (b :: rest) sz) (odUpd n v t acc)
    | .exn => .exn
    | .spin => .spin

/-- `component_from_buffer(buf, return_size=True)` (objects.py lines
1010-1081): returns `(name, data, typecode, endpos)`. -/
def component_from_buffer : Nat → List Nat → PRes (List Nat × GVal × Nat × Int)
  | 0, _ => .spin
  | fuel + 1, buf =>
    if !validUtf8 (pySlice buf 0 (pyFind buf 0 0)) then .exn
    else
      match pySlice buf (pyFind buf 0 0 + 1) (pyFind buf 0 0 + 2) with
      | [] =>
        -- the typecode decodes to `''`, which satisfies `'' in 'CIQD'`; the
        -- branch then raises either in `struct.unpack` (short read) or in
        -- `typelookup['']` (KeyError)
        .exn
      | t :: _ =>
        if 128 ≤ t then .exn  -- one byte ≥ 0x80 fails `.decode('utf-8')`
        else
          componentPayload fuel buf (pySlice buf 0 (pyFind buf 0 0)) t (pyFind buf 0 0 + 2)

/-- The typecode dispatch of `component_from_buffer` (the `if`/`elif` chain
on `typecode`), with `pos` the position just after the typecode byte. -/
def componentPayload : Nat → List Nat → List Nat → Nat → Int →
    PRes (List Nat × GVal × Nat × Int)
  | 0, _, _, _, _ => .spin
  | fuel + 1, buf, nameB, t, pos =>
    if t = 111 then  -- 'o'
      match frombuffer fuel (pyTail buf pos) with
      | .ok (o, size) => .ok (nameB, .obj o, t, pos + (size : Int))
      | .exn => .exn
      | .spin => .spin
    else if t = 115 then  -- 's'
      if !validUtf8 (pySlice buf pos (pyFind buf 0 pos)) then .exn
      else .ok (nameB, .str (pySlice buf pos (pyFind buf 0 pos)), t, pyFind buf 0 pos + 1)
    else if t = 98 then  -- 'b'
      match pySlice buf pos (pos + 1) with
      | [x] => .ok (nameB, .boolean (x != 0), t, pos + 1)
      | _ => .exn  -- `ord(b'')` raises
    else if t = 99 then  -- 'c'
      match pySlice buf pos (pos + 1) with
      | [x] => if 128 ≤ x then .exn else .ok (nameB, .str [x], t, pos + 1)
      | _ => .exn
    else if t = 105 then  -- 'i'
      match unpackI32 (pySlice buf pos (pos + 4)) with
      | some i => .ok (nameB, .int i, t, pos + 4)
      | none => .exn
    else if t = 113 then  -- 'q'
      match unpackI64 (pySlice buf pos (pos + 8)) with
      | some i => .ok (nameB, .int i, t, pos + 8)
      | none => .exn
    else if t = 100 then  -- 'd'
      if (pySlice buf pos (pos + 8)).length = 8 then
        .ok (nameB, .double (pySlice buf pos (pos + 8)), t, pos + 8)
      else .exn
    else if t = 67 then  -- 'C': np.dtype('<S') has itemsize 0, so either
      -- the count unpack or `np.fromstring(..., dtype='S0')` raises
      .exn
    else if t = 73 then  -- 'I'
      match unpackU32 (pySlice buf pos (pos + 4)) with
      | none => .exn
      | some numitems =>
        if (pySlice buf (pos + 4) (pos + 4 + 4 * (numitems : Int))).length % 4 = 0 then
          .ok (nameB,
            .arrI ((takeChunks 4 ((pySlice buf (pos + 4) (pos + 4 + 4 * (numitems : Int))).length / 4)
              (pySlice buf (pos + 4) (pos + 4 + 4 * (numitems : Int)))).map i32ofChunk),
            t, pos + 4 + 4 * (numitems : Int))
        else .exn  -- `np.fromstring`: size must be a multiple of 4
    else if t = 81 then  -- 'Q'
      match unpackU32 (pySlice buf pos (pos + 4)) with
      | none => .exn
      | some numitems =>
        if (pySlice buf (pos + 4) (pos + 4 + 8 * (numitems : Int))).length % 8 = 0 then
          .ok (nameB,
            .arrQ ((takeChunks 8 ((pySlice buf (pos + 4) (pos + 4 + 8 * (numitems : Int))).length / 8)
              (pySlice buf (pos + 4) (pos + 4 + 8 * (numitems : Int)))).map i64ofChunk),
            t, pos + 4 + 8 * (numitems : Int))
        else .exn
    else if t = 68 then  -- 'D'
      match unpackU32 (pySlice buf pos (pos + 4)) with
      | none => .exn
      | some numitems =>
        if (pySlice buf (pos + 4) (pos + 4 + 8 * (numitems : Int))).length % 8 = 0 then
          .ok (nameB,
            .arrD (takeChunks 8 ((pySlice buf (pos + 4) (pos + 4 + 8 * (numitems : Int))).length / 8)
              (pySlice buf (pos + 4) (pos + 4 + 8 * (numitems : Int)))),
            t, pos + 4 + 8 * (numitems : Int))
        else .exn
    else if t = 83 then  -- 'S'
      match unpackU32 (pySlice buf pos (pos + 4)) with
      | none => .exn
      | some numitems =>
        match sLoop buf numitems (pos + 4) with
        | .ok (items, e) => .ok (nameB, .strArr items, t, e)
        | .exn => .exn
        | .spin => .spin
    else if t = 79 then  -- 'O'
      match unpackU32 (pySlice buf pos (pos + 4)) with
      | none => .exn
      | some numitems =>
        match oLoop fuel buf numitems (pos + 4) with
        | .ok (objs, e) => .ok (nameB, .objArr objs, t, e)
        | .exn => .exn
        | .spin => .spin
    else
      .exn  -- `raise NotImplementedError`

/-- The `'O'` element loop of `component_from_buffer`: `numitems` times,
decode an object from `buf[endpos:]` and advance by its reported size. -/
def oLoop : Nat → List Nat → Nat → Int → PRes (GObjList × Int)
  | 0, _, _, _ => .spin
  | _ + 1, _, 0, endpos => .ok (.nil, endpos)
  | fuel + 1, buf, n + 1, endpos =>
    match frombuffer fuel (pyTail buf endpos) with
      | .ok (o, size) =>
        match oLoop fuel buf n (endpos + (size : Int)) with
        | .ok (objs, e) => .ok (.cons o objs, e)
        | .exn => .exn
        | .spin => .spin
      | .exn => .exn
      | .spin => .spin

end

/-! ## Typecode inference and the serializer -/

/-- `guess_typecode(value)` (objects.py lines 1084-1121). The initial
`value.item()` conversion of numpy scalars is implicit: values here are the
post-conversion Python values. Note `type(value) is list` maps every list
(including a list of strings) to `'O'`, and an ndarray whose dtype is none
of `f8`/`i8`/`i4`/`S` (e.g. 4-byte floats) raises `NotImplementedError`. -/
def guess_typecode : GVal → Option Nat
  | .obj _ => some 111
  | .str s => if countCp s = 1 then some 99 else some 115
  | .boolean _ => some 98
  | .int i => if i.natAbs < 2147483648 then some 105 else some 113
  | .double _ => some 100
  | .arrD _ => some 68
  | .arrQ _ => some 81
  | .arrI _ => some 73
  | .arrC _ => some 67
  | .ndarrF4 _ => none
  | .strArr _ => some 79
  | .objArr _ => some 79

mutual

/-- `GwyObject.serialize` (objects.py lines 81-96): concatenate the
serialized components in key order, prepend `name + NUL + '<I' length`. -/
def serialize (o : GObj) : Option (List Nat) :=
  match o with
  | .mk name comps =>
    match serializeComps comps with
    | none => none
    | some body =>
      match packU32 body.length with
      | none => none
      | some sz => some (name ++ [0] ++ sz ++ body)

def serializeComps : GCompList → Option (List Nat)
  | .nil => some []
  | .cons (.mk n v t) rest =>
    match serialize_component n v t, serializeComps rest with
    | some a, some b => some (a ++ b)
    | _, _ => none

/-- `serialize_component(name, value, typecode)` (objects.py lines
1124-1173). A missing typecode is inferred with `guess_typecode`; a value
whose runtime shape does not fit the typecode raises (collapsed to `none`).
The int→float bit conversion (`struct.pack('<d', int)`, `astype` between
float and int dtypes) and the numpy flexible `'S'` dtype buffer layout are
not modelled: those shape/typecode combinations return `none` here and are
unreachable from decoded trees. -/
def serialize_component (name : List Nat) (v : GVal) (tcode : Option Nat) :
    Option (List Nat) :=
  match (match tcode with | some t => some t | none => guess_typecode v) with
  | none => none
  | some t =>
    match
      (if t = 111 then  -- 'o'
        match v with
        | .obj o => serialize o
        | _ => none
      else if t = 115 then  -- 's'
        match v with
        | .str s => some (s ++ [0])
        | _ => none
      else if t = 99 then  -- 'c': `value.encode('utf-8')`, whatever its length
        match v with
        | .str s => some s
        | _ => none
      else if t = 98 then  -- 'b': `chr(value).encode('utf-8')`
        match v with
        | .boolean b => some [if b then 1 else 0]
        | .int i => encodeCp i
        | _ => none
      else if t = 105 then  -- 'i'
        match v with
        | .int i => packI32 i
        | .boolean b => packI32 (if b then 1 else 0)
        | _ => none
      else if t = 113 then  -- 'q'
        match v with
        | .int i => packI64 i
        | .boolean b => packI64 (if b then 1 else 0)
        | _ => none
      else if t = 100 then  -- 'd'
        match v with
        | .double s => if s.length = 8 then some s else none
        | _ => none
      else if t = 73 then  -- 'I': `astype('<i4')` truncates, count is `len(value)`
        match v with
        | .arrI xs =>
          match packU32 xs.length with
          | some c => some (c ++ (xs.map truncI32).flatten)
          | none => none
        | .arrQ xs =>
          match packU32 xs.length with
          | some c => some (c ++ (xs.map truncI32).flatten)
          | none => none
        | _ => none
      else if t = 81 then  -- 'Q': `astype('<i8')`
        match v with
        | .arrQ xs =>
          match packU32 xs.length with
          | some c => some (c ++ (xs.map truncI64).flatten)
          | none => none
        | .arrI xs =>
          match packU32 xs.length with
          | some c => some (c ++ (xs.map truncI64).flatten)
          | none => none
        | _ => none
      else if t = 68 then  -- 'D': f8 elements kept bit-exact
        match v with
        | .arrD xs =>
          if xs.all (fun x => x.length = 8) then
            match packU32 xs.length with
            | some c => some (c ++ xs.flatten)
            | none => none
          else none
        | _ => none
      else if t = 83 then  -- 'S'
        match v with
        | .strArr xs =>
          match packU32 xs.length with
          | some c => some (c ++ (xs.map (fun s => s ++ [0])).flatten)
          | none => none
        | _ => none
      else if t = 79 then  -- 'O'
        match v with
        | .objArr os =>
          match packU32 os.length, serializeObjList os with
          | some c, some b => some (c ++ b)
          | _, _ => none
        | _ => none
      else none)  -- 'C' (flexible dtype) and unknown typecodes raise
    with
    | none => none
    | some payload => some (name ++ [0] ++ [t] ++ payload)

def serializeObjList : GObjList → Option (List Nat)
  | .nil => some []
  | .cons o rest =>
    match serialize o, serializeObjList rest with
    | some a, some b => some (a ++ b)
    | _, _ => none

end

/-! ## GwyDataField data accessor -/

/-- The `GwyDataField.data` setter (objects.py lines 207-212): for a 2-D
array of shape `(yres, xres)` (so `flat.length = yres * xres`), store
`xres`, `yres` and the flattened data. -/
def dataFieldSetData (o : GObj) (yres xres : Nat) (flat : List (List Nat)) : GObj :=
  match o with
  | .mk name comps =>
    .mk name (odSet (asciiBytes "data") (.arrD flat)
      (odSet (asciiBytes "yres") (.int (yres : Int))
        (odSet (asciiBytes "xres") (.int (xres : Int)) comps)))

/-- The `GwyDataField.data` getter (objects.py lines 201-205): reshape the
flat `data` component to `(yres, xres)`; `np.reshape` raises unless the
element count equals `yres * xres`. -/
def dataFieldGetData (o : GObj) : Option (Nat × Nat × List (List Nat)) :=
  match o.comps.lookup (asciiBytes "xres"), o.comps.lookup (asciiBytes "yres"),
    o.comps.lookup (asciiBytes "data") with
  | some (.int x), some (.int y), some (.arrD l) =>
    if 0 ≤ x ∧ 0 ≤ y ∧ (l.length : Int) = y * x then
      some (y.toNat, x.toNat, l)
    else none
  | _, _, _ => none

/-- The derived-dimension invariant of a 2-D field: the declared `xres` and
`yres` components exist and their product equals the element count of the
flattened `data` component. -/
def dataFieldConsistent (o : GObj) : Bool :=
  match o.comps.lookup (asciiBytes "xres"), o.comps.lookup (asciiBytes "yres"),
    o.comps.lookup (asciiBytes "data") with
  | some (.int x), some (.int y), some (.arrD l) => (l.length : Int) == x * y
  | _, _, _ => false

/-! ## Invariants of decoder-produced trees -/

/-- Names of an ordered component list. -/
def namesOf : GCompList → List (List Nat)
  | .nil => []
  | .cons c rest => c.name :: namesOf rest

/-- Pairwise-distinct keys. -/
def distinctKeys : List (List Nat) → Bool
  | [] => true
  | x :: r => (!r.contains x) && distinctKeys r

mutual

/-- Well-formedness of a decoded tree: what a successful (registry-free)
decode guarantees, and what makes re-serialization faithful. Every
component carries a recorded typecode whose shape matches the value,
strings and names are NUL-free valid UTF-8, `'c'` values are single ASCII
bytes, scalars fit their ranges, doubles are 8 raw bytes, and component
names are pairwise distinct. -/
def wfObj : GObj → Bool
  | .mk name comps =>
    (!name.contains 0) && validUtf8 name && wfComps comps &&
      distinctKeys (namesOf comps)

def wfComps : GCompList → Bool
  | .nil => true
  | .cons (.mk n v t) rest =>
    (!n.contains 0) && validUtf8 n &&
      (match t with
       | some tc => wfVal tc v
       | none => false) &&
      wfComps rest

def wfVal (t : Nat) : GVal → Bool
  | .obj o => t == 111 && wfObj o
  | .str s =>
    if t = 115 then (!s.contains 0) && validUtf8 s
    else if t = 99 then
      match s with
      | [b] => decide (b ≤ 127)
      | _ => false
    else false
  | .boolean _ => t == 98
  | .int i =>
    if t = 105 then decide (-2147483648 ≤ i ∧ i < 2147483648)
    else if t = 113 then decide (-9223372036854775808 ≤ i ∧ i < 9223372036854775808)
    else false
  | .double s => t == 100 && s.length == 8
  | .arrC _ => false
  | .arrI xs => t == 73 && xs.all (fun i => decide (-2147483648 ≤ i ∧ i < 2147483648))
  | .arrQ xs =>
    t == 81 && xs.all (fun i => decide (-9223372036854775808 ≤ i ∧ i < 9223372036854775808))
  | .arrD xs => t == 68 && xs.all (fun x => x.length == 8)
  | .ndarrF4 _ => false
  | .strArr xs => t == 83 && xs.all (fun s => (!s.contains 0) && validUtf8 s)
  | .objArr os => t == 79 && wfObjList os

def wfObjList : GObjList → Bool
  | .nil => true
  | .cons o rest => wfObj o && wfObjList rest

end

mutual

/-- Registry-free, ASCII type names, throughout the tree: no object's type
name is a `_gwyddion_types` key (so no wrapper rewrites components) and
every type name is pure ASCII (so the reported `len(name) + 5 + size` is
the true byte count, keeping nested-object parsing aligned). -/
def rfaObj : GObj → Bool
  | .mk name comps =>
    decide (name ∉ registryNames) && name.all (fun b => decide (b ≤ 127)) && rfaComps comps

def rfaComps : GCompList → Bool
  | .nil => true
  | .cons (.mk _ v _) rest => rfaVal v && rfaComps rest

def rfaVal : GVal → Bool
  | .obj o => rfaObj o
  | .objArr os => rfaObjList os
  | _ => true

def rfaObjList : GObjList → Bool
  | .nil => true
  | .cons o rest => rfaObj o && rfaObjList rest

end

/-! ## Concrete example inputs -/

/-- A buffer whose type name `"ABCD"` has no NUL terminator anywhere. -/
def bufMissingNulName : List Nat := [65, 66, 67, 68]

/-- Object `"T"` of declared size 2 whose single component `b'b\x07'` has
no NUL terminator in its name. -/
def bufMissingNulComp : List Nat := [84, 0, 2, 0, 0, 0, 98, 7]

/-- Object `"é"` (2 UTF-8 bytes) with an empty body: 7 bytes in total. -/
def bufNonAsciiName : List Nat := [195, 169, 0, 0, 0, 0, 0]

/-- Object `"T"` of declared size 15 whose single `'D'` component declares
2 array elements (16 bytes) but only 8 bytes are present: the component's
reported size (23) overruns the declared body (15). -/
def bufOverrun : List Nat :=
  [84, 0, 15, 0, 0, 0] ++ [97, 0, 68] ++ [2, 0, 0, 0] ++ [0, 0, 0, 0, 0, 0, 0, 0]

/-- The tree decoded from `bufOverrun`. -/
def objOverrun : GObj :=
  .mk [84] (.cons (.mk [97] (.arrD [[0, 0, 0, 0, 0, 0, 0, 0]]) (some 68)) .nil)

/-- A serialized `GwyDataField` whose `xres` component is stored with
typecode `'q'` and value `2^40`. -/
def bufDataFieldQ : List Nat :=
  asciiBytes "GwyDataField" ++ [0] ++ [14, 0, 0, 0] ++
    (asciiBytes "xres" ++ [0] ++ [113] ++ [0, 0, 0, 0, 0, 1, 0, 0])

/-- The tree decoded from `bufDataFieldQ`: `GwyDataField.__init__` has
overridden the recorded typecode of `xres` to `'i'` while the value stays
`2^40`. -/
def objDataFieldQ : GObj :=
  .mk (asciiBytes "GwyDataField")
    (.cons (.mk (asciiBytes "xres") (.int 1099511627776) (some 105)) .nil)

/-- A serialized `GwyDataField` with `xres = yres = 2` but a 1-element
`data` array. -/
def bufDataFieldBad : List Nat :=
  asciiBytes "GwyDataField" ++ [0] ++ [38, 0, 0, 0] ++
    (asciiBytes "xres" ++ [0] ++ [105] ++ [2, 0, 0, 0]) ++
    (asciiBytes "yres" ++ [0] ++ [105] ++ [2, 0, 0, 0]) ++
    (asciiBytes "data" ++ [0] ++ [68] ++ [1, 0, 0, 0] ++ [0, 0, 0, 0, 0, 0, 0, 0])

/-- The tree decoded from `bufDataFieldBad`: the decoder performs no shape
validation, so `xres * yres = 4` while `data` has 1 element. -/
def objDataFieldBad : GObj :=
  .mk (asciiBytes "GwyDataField")
    (.cons (.mk (asciiBytes "xres") (.int 2) (some 105))
      (.cons (.mk (asciiBytes "yres") (.int 2) (some 105))
        (.cons (.mk (asciiBytes "data") (.arrD [[0, 0, 0, 0, 0, 0, 0, 0]]) (some 68)) .nil)))

/-! # Theorems -/

/-! ## C2: exactness of the reported size -/

/-- **C2** (code_bug evidence): `frombuffer` reports `len(name) + 5 + size`
where `len(name)` counts code points of the decoded type name, not its
bytes. On `bufNonAsciiName` — the 7-byte buffer for an object whose type
name `"é"` occupies 2 UTF-8 bytes — the decoder succeeds but reports only
6 consumed bytes, one short of the bytes the object occupied. -/
theorem claim_C2_size_misreported_for_nonascii_name :
    frombuffer 9 bufNonAsciiName = .ok (GObj.mk [195, 169] .nil, 6) ∧
    bufNonAsciiName.length = 7 :=
  ⟨rfl, rfl⟩

/-! ## C3: no length-accounting check -/

/-- **C3** counterexample: decoding `bufOverrun` — whose single `'D'`
component declares 16 payload bytes while the declared body only has 8
left — succeeds and returns an object instead of raising a format
error. -/
theorem claim_C3_counterexample :
    frombuffer 9 bufOverrun = .ok (objOverrun, 21) := rfl

/-- **C3** amended: the decoder performs no length-accounting check. On
`bufOverrun` the component reports 23 consumed bytes against a declared
body of 15; the `while` loop just slices past the end to the empty buffer
and decoding succeeds with the truncated (1-element) array. -/
theorem claim_C3_amended :
    component_from_buffer 8 (pySlice bufOverrun 6 21) =
      .ok ([97], .arrD [[0, 0, 0, 0, 0, 0, 0, 0]], 68, 23) ∧
    (23 : Int) ≠ 15 ∧
    frombuffer 9 bufOverrun = .ok (objOverrun, 21) :=
  ⟨rfl, by decide, rfl⟩

/-! ## C4: missing NUL terminators -/

/-- **C4** (code_bug evidence): a missing NUL terminator does not raise.
`bytes.find` returns `-1`, which the decoder uses directly as a slice
index: `bufMissingNulName` (type name with no NUL anywhere) decodes to an
object named `"ABC"` — the last byte silently lost to `buf[:-1]` — and
`bufMissingNulComp` (a component name with no NUL before the end of the
body) decodes to an object with a component named `"b"`. -/
theorem claim_C4_missing_nul_no_error :
    frombuffer 9 bufMissingNulName = .ok (GObj.mk [65, 66, 67] .nil, 1145258569) ∧
    frombuffer 9 bufMissingNulComp =
      .ok (GObj.mk [84] (.cons (.mk [98] (.boolean true) (some 98)) .nil), 8) :=
  ⟨rfl, rfl⟩

/-! ## C5: float-array typecode inference -/

/-- **C5** counterexample: `guess_typecode` on a homogeneous numeric array
of 4-byte floats does not return `'D'` (it raises
`NotImplementedError`). -/
theorem claim_C5_counterexample : guess_typecode (.ndarrF4 4) ≠ some 68 := by
  decide

/-- **C5** amended: the `'D'` typecode is inferred exactly for arrays of
8-byte floats (dtype `f8`), regardless of length; a 4-byte float array is
a fatal encode error. -/
theorem claim_C5_amended (n : Nat) (xs : List (List Nat)) :
    guess_typecode (.ndarrF4 n) = none ∧ guess_typecode (.arrD xs) = some 68 :=
  ⟨rfl, rfl⟩

/-! ## C9: empty-string typecode inference -/

/-- **C9**: `guess_typecode` maps the empty string to `'s'` (not `'c'`,
not an error), and infers `'c'` exactly when the string's length is 1. -/
theorem claim_C9_empty_string_typecode (s : List Nat) :
    guess_typecode (.str []) = some 115 ∧
    (guess_typecode (.str s) = some 99 ↔ countCp s = 1) := by
  refine ⟨rfl, ?_⟩
  by_cases h : countCp s = 1 <;> simp [guess_typecode, h]

/-! ## C6: unknown typecodes are fatal -/

/-- **C6**: whenever the decoded typecode byte of a component is not one of
the thirteen supported codes `o s c b i q d C I Q D S O`, decoding the
component raises (the final `else` of the chain is `raise
NotImplementedError`; a typecode byte ≥ 0x80 already fails UTF-8
decoding). No skipping and no partial result: the outcome is an
exception. -/
theorem claim_C6_unknown_typecode_fatal (fuel : Nat) (buf : List Nat) (t : Nat) (r : List Nat)
    (h : pySlice buf (pyFind buf 0 0 + 1) (pyFind buf 0 0 + 2) = t :: r)
    (ht : t ∉ [111, 115, 99, 98, 105, 113, 100, 67, 73, 81, 68, 83, 79]) :
    component_from_buffer (fuel + 2) buf = .exn := by
  simp only [List.mem_cons, List.not_mem_nil, or_false, not_or] at ht
  obtain ⟨h1, h2, h3, h4, h5, h6, h7, h8, h9, h10, h11, h12, h13⟩ := ht
  unfold component_from_buffer
  rw [h]
  split
  · rfl
  · unfold componentPayload
    simp only [h1, h2, h3, h4, h5, h6, h7, h8, h9, h10, h11, h12, h13, if_false]
    split <;> rfl

/-- **C6** witness: the component `b'n\x00X'` carries the unsupported
typecode `'X'` and decoding it raises. -/
theorem claim_C6_witness : component_from_buffer 5 [110, 0, 88] = .exn :=
  claim_C6_unknown_typecode_fatal 3 [110, 0, 88] 88 [] (by decide) (by decide)


/-! ## C8: derived-dimension consistency of 2-D fields -/

/-- Spine induction for `GCompList` (the `induction` tactic cannot use the
mutual recursor directly). -/
theorem clistInduction {motive : GCompList → Prop} (hnil : motive .nil)
    (hcons : ∀ c rest, motive rest → motive (.cons c rest)) : ∀ l, motive l
  | .nil => hnil
  | .cons c rest => hcons c rest (clistInduction hnil hcons rest)

/-- Spine induction for `GObjList`. -/
theorem olistInduction {motive : GObjList → Prop} (hnil : motive .nil)
    (hcons : ∀ o rest, motive rest → motive (.cons o rest)) : ∀ l, motive l
  | .nil => hnil
  | .cons o rest => hcons o rest (olistInduction hnil hcons rest)

theorem lookup_odSet_self (k : List Nat) (v : GVal) (l : GCompList) :
    (odSet k v l).lookup k = some v := by
  induction l using clistInduction with
  | hnil => simp [odSet, GCompList.lookup, GComp.name, GComp.value]
  | hcons c rest ih =>
    obtain ⟨n, v2, t2⟩ := c
    by_cases h : n = k <;>
      simp [odSet, h, GCompList.lookup, GComp.name, GComp.value, GComp.tc, ih]

theorem lookup_odSet_other (k k2 : List Nat) (v : GVal) (l : GCompList)
    (hne : k2 ≠ k) : (odSet k v l).lookup k2 = l.lookup k2 := by
  induction l using clistInduction with
  | hnil => simp [odSet, GCompList.lookup, GComp.name, Ne.symm hne]
  | hcons c rest ih =>
    obtain ⟨n, v2, t2⟩ := c
    by_cases h : n = k
    · subst h
      simp [odSet, GCompList.lookup, GComp.name, GComp.value, GComp.tc, Ne.symm hne, ih]
    · by_cases h2 : n = k2 <;>
        simp [odSet, h, h2, hne, GCompList.lookup, GComp.name, GComp.value, GComp.tc, ih]

/-- **C8** amended: assigning a 2-D array of shape `(yres, xres)` through
the `GwyDataField.data` setter always re-establishes the derived-dimension
invariant — `xres * yres` equals the element count of the flattened `data`
component — and updates the declared `xres`/`yres` components to the new
array's shape, whatever the prior state of the object was (so the
invariant holds after any sequence of data assignments). Decoding, by
contrast, performs no such validation (see the counterexample). -/
theorem claim_C8_setter_consistent (o : GObj) (yres xres : Nat)
    (flat : List (List Nat)) (hshape : flat.length = yres * xres) :
    dataFieldConsistent (dataFieldSetData o yres xres flat) = true ∧
    (dataFieldSetData o yres xres flat).comps.lookup (asciiBytes "xres") =
      some (.int (xres : Int)) ∧
    (dataFieldSetData o yres xres flat).comps.lookup (asciiBytes "yres") =
      some (.int (yres : Int)) ∧
    (dataFieldSetData o yres xres flat).comps.lookup (asciiBytes "data") =
      some (.arrD flat) := by
  obtain ⟨name, comps⟩ := o
  have hx : (dataFieldSetData (.mk name comps) yres xres flat).comps.lookup
      (asciiBytes "xres") = some (.int (xres : Int)) := by
    show (odSet (asciiBytes "data") _ (odSet (asciiBytes "yres") _
      (odSet (asciiBytes "xres") _ comps))).lookup (asciiBytes "xres") = _
    rw [lookup_odSet_other _ _ _ _ (by decide), lookup_odSet_other _ _ _ _ (by decide),
      lookup_odSet_self]
  have hy : (dataFieldSetData (.mk name comps) yres xres flat).comps.lookup
      (asciiBytes "yres") = some (.int (yres : Int)) := by
    show (odSet (asciiBytes "data") _ (odSet (asciiBytes "yres") _
      (odSet (asciiBytes "xres") _ comps))).lookup (asciiBytes "yres") = _
    rw [lookup_odSet_other _ _ _ _ (by decide), lookup_odSet_self]
  have hd : (dataFieldSetData (.mk name comps) yres xres flat).comps.lookup
      (asciiBytes "data") = some (.arrD flat) := by
    show (odSet (asciiBytes "data") _ (odSet (asciiBytes "yres") _
      (odSet (asciiBytes "xres") _ comps))).lookup (asciiBytes "data") = _
    rw [lookup_odSet_self]
  refine ⟨?_, hx, hy, hd⟩
  rw [dataFieldConsistent, hx, hy, hd]
  simp only [beq_iff_eq, hshape]
  push_cast
  ring

/-- **C8** counterexample: a decoded 2-D field need not satisfy the
invariant. `bufDataFieldBad` declares `xres = yres = 2` but carries a
1-element `data` array; decoding succeeds (no validation on the decode
path) and the resulting field violates `xres * yres = len(data)` — its
`data` getter (`np.reshape`) would raise. -/
theorem claim_C8_counterexample :
    frombuffer 9 bufDataFieldBad = .ok (objDataFieldBad, 55) ∧
    dataFieldConsistent objDataFieldBad = false ∧
    dataFieldGetData objDataFieldBad = none :=
  ⟨rfl, rfl, rfl⟩

/-- **C8** witness: a concrete assignment of a 2×3 array. -/
theorem claim_C8_witness :
    dataFieldConsistent (dataFieldSetData (.mk [] .nil) 2 3 [[], [], [], [], [], []]) = true ∧
    (dataFieldSetData (.mk [] .nil) 2 3 [[], [], [], [], [], []]).comps.lookup
      (asciiBytes "xres") = some (.int ((3 : Nat) : Int)) ∧
    (dataFieldSetData (.mk [] .nil) 2 3 [[], [], [], [], [], []]).comps.lookup
      (asciiBytes "yres") = some (.int ((2 : Nat) : Int)) ∧
    (dataFieldSetData (.mk [] .nil) 2 3 [[], [], [], [], [], []]).comps.lookup
      (asciiBytes "data") = some (.arrD [[], [], [], [], [], []]) :=
  claim_C8_setter_consistent (.mk [] .nil) 2 3 [[], [], [], [], [], []] (by decide)

/-! ## Positional facts about slices and find -/

theorem pyIdx_coe (n k : Nat) : pyIdx n (k : Int) = min k n := by
  rw [pyIdx, if_neg (by omega), Int.toNat_natCast]

theorem pySlice_coe (buf : List Nat) (a b : Nat) :
    pySlice buf (a : Int) (b : Int) = (buf.take b).drop a := by
  rw [pySlice, pyIdx_coe, pyIdx_coe]
  have h1 : buf.take (min b buf.length) = buf.take b := by
    rcases Nat.le_total b buf.length with h | h
    · rw [Nat.min_eq_left h]
    · rw [Nat.min_eq_right h, List.take_length, List.take_of_length_le h]
  rw [h1]
  rcases Nat.le_total a buf.length with h | h
  · rw [Nat.min_eq_left h]
  · rw [Nat.min_eq_right h, List.drop_eq_nil_of_le, List.drop_eq_nil_of_le]
    · exact le_trans (by simp) h
    · simp

theorem pyTail_coe (buf : List Nat) (a : Nat) : pyTail buf (a : Int) = buf.drop a := by
  rw [pyTail, pySlice_coe, List.take_length]

theorem findIdx?_append_cons (x suf : List Nat) (c : Nat) (hx : c ∉ x) :
    (x ++ c :: suf).findIdx? (fun b => b == c) = some x.length := by
  induction x with
  | nil => simp [List.findIdx?_cons]
  | cons a r ih =>
    have ha : (a == c) = false := by
      simp only [beq_eq_false_iff_ne, ne_eq]
      exact fun h => hx (h ▸ List.mem_cons_self a r)
    have hr : c ∉ r := fun h => hx (List.mem_cons_of_mem a h)
    simp [List.findIdx?_cons, ha, ih hr]

theorem pyFind_at (pre x suf : List Nat) (c : Nat) (hx : c ∉ x) :
    pyFind (pre ++ (x ++ c :: suf)) c (pre.length : Int) =
      ((pre.length + x.length : Nat) : Int) := by
  rw [pyFind, pyIdx_coe, Nat.min_eq_left (by simp), List.drop_left,
    findIdx?_append_cons x suf c hx]

theorem pyFind_zero (x suf : List Nat) (c : Nat) (hx : c ∉ x) :
    pyFind (x ++ c :: suf) c 0 = (x.length : Int) := by
  have h := pyFind_at [] x suf c hx
  simp only [List.nil_append, List.length_nil, Nat.cast_zero, Nat.zero_add] at h
  exact h

theorem pySlice_prefix (pre rest : List Nat) :
    pySlice (pre ++ rest) 0 (pre.length : Int) = pre := by
  have h0 : (0 : Int) = ((0 : Nat) : Int) := rfl
  rw [h0, pySlice_coe, List.take_left, List.drop_zero]

theorem pyTail_append (pre rest : List Nat) :
    pyTail (pre ++ rest) (pre.length : Int) = rest := by
  rw [pyTail_coe, List.drop_left]

theorem pySlice_middle (pre mid suf : List Nat) :
    pySlice (pre ++ mid ++ suf) (pre.length : Int)
      ((pre.length + mid.length : Nat) : Int) = mid := by
  rw [pySlice_coe, List.take_left' (by simp), List.drop_left]

theorem decoder_mono (fuel : Nat) :
    (∀ buf r, frombuffer fuel buf = .ok r → frombuffer (fuel + 1) buf = .ok r) ∧
    (∀ buf acc r, frombufferLoop fuel buf acc = .ok r →
      frombufferLoop (fuel + 1) buf acc = .ok r) ∧
    (∀ buf r, component_from_buffer fuel buf = .ok r →
      component_from_buffer (fuel + 1) buf = .ok r) ∧
    (∀ buf nameB t pos r, componentPayload fuel buf nameB t pos = .ok r →
      componentPayload (fuel + 1) buf nameB t pos = .ok r) ∧
    (∀ buf n endpos r, oLoop fuel buf n endpos = .ok r →
      oLoop (fuel + 1) buf n endpos = .ok r) := by
  induction fuel with
  | zero =>
    exact ⟨fun buf r h => absurd h (by simp [frombuffer]),
      fun buf acc r h => absurd h (by simp [frombufferLoop]),
      fun buf r h => absurd h (by simp [component_from_buffer]),
      fun buf nameB t pos r h => absurd h (by simp [componentPayload]),
      fun buf n endpos r h => absurd h (by simp [oLoop])⟩
  | succ fuel ih =>
    obtain ⟨ihF, ihL, ihC, ihP, ihO⟩ := ih
    refine ⟨?_, ?_, ?_, ?_, ?_⟩
    · -- frombuffer
      intro buf r h
      unfold frombuffer at h ⊢
      split at h
      · exact absurd h (by simp)
      · rename_i hv
        rw [if_neg (by simp_all)]
        split at h
        · exact absurd h (by simp)
        · split at h
          · rename_i comps hl
            rw [ihL _ _ _ hl]
            exact h
          · exact absurd h (by simp)
          · exact absurd h (by simp)
    · -- frombufferLoop
      intro buf acc r h
      cases buf with
      | nil => exact h
      | cons b rest =>
        unfold frombufferLoop at h ⊢
        split at h
        · rename_i n v t sz hc
          rw [ihC _ _ hc]
          exact ihL _ _ _ h
        · exact absurd h (by simp)
        · exact absurd h (by simp)
    · -- component_from_buffer
      intro buf r h
      unfold component_from_buffer at h ⊢
      split at h
      · exact absurd h (by simp)
      · rename_i hv
        rw [if_neg (by simp_all)]
        split at h
        · exact absurd h (by simp)
        · split at h
          · exact absurd h (by simp)
          · rename_i ht
            rw [if_neg ht]
            exact ihP _ _ _ _ _ h
    · -- componentPayload
      intro buf nameB t pos r h
      unfold componentPayload at h ⊢
      by_cases h111 : t = 111
      · rw [if_pos h111] at h ⊢
        split at h
        · rename_i o size hF
          rw [ihF _ _ hF]
          exact h
        · exact absurd h (by simp)
        · exact absurd h (by simp)
      rw [if_neg h111] at h ⊢
      by_cases h115 : t = 115
      · rw [if_pos h115] at h ⊢; exact h
      rw [if_neg h115] at h ⊢
      by_cases h98 : t = 98
      · rw [if_pos h98] at h ⊢; exact h
      rw [if_neg h98] at h ⊢
      by_cases h99 : t = 99
      · rw [if_pos h99] at h ⊢; exact h
      rw [if_neg h99] at h ⊢
      by_cases h105 : t = 105
      · rw [if_pos h105] at h ⊢; exact h
      rw [if_neg h105] at h ⊢
      by_cases h113 : t = 113
      · rw [if_pos h113] at h ⊢; exact h
      rw [if_neg h113] at h ⊢
      by_cases h100 : t = 100
      · rw [if_pos h100] at h ⊢; exact h
      rw [if_neg h100] at h ⊢
      by_cases h67 : t = 67
      · rw [if_pos h67] at h ⊢; exact h
      rw [if_neg h67] at h ⊢
      by_cases h73 : t = 73
      · rw [if_pos h73] at h ⊢; exact h
      rw [if_neg h73] at h ⊢
      by_cases h81 : t = 81
      · rw [if_pos h81] at h ⊢; exact h
      rw [if_neg h81] at h ⊢
      by_cases h68 : t = 68
      · rw [if_pos h68] at h ⊢; exact h
      rw [if_neg h68] at h ⊢
      by_cases h83 : t = 83
      · rw [if_pos h83] at h ⊢; exact h
      rw [if_neg h83] at h ⊢
      by_cases h79 : t = 79
      · rw [if_pos h79] at h ⊢
        split at h
        · exact absurd h (by simp)
        · split at h
          · rename_i objs e hO
            rw [ihO _ _ _ _ hO]
            exact h
          · exact absurd h (by simp)
          · exact absurd h (by simp)
      rw [if_neg h79] at h ⊢
      exact h
    · -- oLoop
      intro buf n endpos r h
      cases n with
      | zero => exact h
      | succ m =>
        unfold oLoop at h ⊢
        split at h
        · rename_i o size hF
          split at h
          · rename_i objs e hO
            simp only [ihF _ _ hF, ihO _ _ _ _ hO]
            exact h
          · exact absurd h (by simp)
          · exact absurd h (by simp)
        · exact absurd h (by simp)
        · exact absurd h (by simp)

theorem frombuffer_mono_le {f1 f2 : Nat} (h : f1 ≤ f2) {buf : List Nat} {r : GObj × Nat}
    (hd : frombuffer f1 buf = .ok r) : frombuffer f2 buf = .ok r := by
  induction h with
  | refl => exact hd
  | step _ ih => exact (decoder_mono _).1 _ _ ih

theorem frombufferLoop_mono_le {f1 f2 : Nat} (h : f1 ≤ f2) {buf : List Nat}
    {acc r : GCompList} (hd : frombufferLoop f1 buf acc = .ok r) :
    frombufferLoop f2 buf acc = .ok r := by
  induction h with
  | refl => exact hd
  | step _ ih => exact (decoder_mono _).2.1 _ _ _ ih

theorem component_mono_le {f1 f2 : Nat} (h : f1 ≤ f2) {buf : List Nat}
    {r : List Nat × GVal × Nat × Int} (hd : component_from_buffer f1 buf = .ok r) :
    component_from_buffer f2 buf = .ok r := by
  induction h with
  | refl => exact hd
  | step _ ih => exact (decoder_mono _).2.2.1 _ _ ih

/-- The serialized layout of one object: NUL-terminated type name, 4-byte
little-endian body length, body; `ext` is whatever follows in the buffer. -/
def objBuf (name body ext : List Nat) : List Nat :=
  name ++ [0] ++ leBytes4 body.length ++ body ++ ext

theorem leVal_leBytes4 (n : Nat) : leVal (leBytes4 n) = n % 4294967296 := by
  simp only [leVal, leBytes4]
  omega

theorem unpackU32_leBytes4 (n : Nat) (h : n < 4294967296) :
    unpackU32 (leBytes4 n) = some n := by
  rw [unpackU32, if_pos (by rfl), leVal_leBytes4]
  congr 1
  omega

theorem frombuffer_objBuf (fuel : Nat) (name body ext : List Nat)
    (hnn : (0 : Nat) ∉ name) (hv : validUtf8 name = true)
    (hlen : body.length < 4294967296) :
    frombuffer (fuel + 1) (objBuf name body ext) =
      match frombufferLoop fuel body .nil with
      | .ok comps => .ok (registryApply name comps, countCp name + 5 + body.length)
      | .exn => .exn
      | .spin => .spin := by
  have hfind : pyFind (objBuf name body ext) 0 0 = (name.length : Int) := by
    have hbuf : objBuf name body ext =
        name ++ (0 :: (leBytes4 body.length ++ (body ++ ext))) := by
      simp [objBuf]
    rw [hbuf]
    exact pyFind_zero name _ 0 hnn
  have hname : pySlice (objBuf name body ext) 0 (name.length : Int) = name := by
    have hbuf : objBuf name body ext =
        name ++ ([0] ++ leBytes4 body.length ++ body ++ ext) := by
      simp [objBuf]
    rw [hbuf]
    exact pySlice_prefix name _
  have hsize : pySlice (objBuf name body ext) ((name.length : Int) + 1)
      ((name.length : Int) + 5) = leBytes4 body.length := by
    have hbuf : objBuf name body ext =
        (name ++ [0]) ++ leBytes4 body.length ++ (body ++ ext) := by
      simp [objBuf]
    have hl1 : (name ++ [0]).length = name.length + 1 := by simp
    have hl2 : (leBytes4 body.length).length = 4 := rfl
    have e1 : ((name.length : Int) + 1) = (((name ++ [0]).length : Nat) : Int) := by
      rw [hl1]; push_cast; ring
    have e2 : ((name.length : Int) + 5) =
        ((((name ++ [0]).length + (leBytes4 body.length).length : Nat)) : Int) := by
      rw [hl1, hl2]; push_cast; ring
    rw [hbuf, e2, e1]
    exact pySlice_middle _ _ _
  have hdata : pySlice (objBuf name body ext) ((name.length : Int) + 5)
      ((name.length : Int) + 5 + (body.length : Int)) = body := by
    have hbuf : objBuf name body ext =
        (name ++ [0] ++ leBytes4 body.length) ++ body ++ ext := by
      simp [objBuf]
    have hl1 : (name ++ [0] ++ leBytes4 body.length).length = name.length + 5 := by
      simp [leBytes4]
    have e1 : ((name.length : Int) + 5) =
        (((name ++ [0] ++ leBytes4 body.length).length : Nat) : Int) := by
      rw [hl1]; push_cast; ring
    have e2 : ((name.length : Int) + 5 + (body.length : Int)) =
        ((((name ++ [0] ++ leBytes4 body.length).length + body.length : Nat)) : Int) := by
      rw [hl1]; push_cast; ring
    rw [hbuf, e2, e1]
    exact pySlice_middle _ _ _
  unfold frombuffer
  simp only [hfind, hname, hv, Bool.not_true, Bool.false_eq_true, if_false,
    hsize, unpackU32_leBytes4 _ hlen, hdata]

/-! ## C7: unknown type names fall back to the generic object -/

theorem registryApply_generic (name : List Nat) (comps : GCompList)
    (h : name ∉ registryNames) : registryApply name comps = .mk name comps := by
  simp only [registryNames, List.mem_cons, List.not_mem_nil, or_false, not_or] at h
  obtain ⟨h1, h2, h3, h4, h5, h6, h7⟩ := h
  unfold registryApply
  rw [if_neg h2, if_neg h4, if_neg h5, if_neg h6]

theorem frombufferLoop_nil (fuel : Nat) (h : 1 ≤ fuel) (acc : GCompList) :
    frombufferLoop fuel [] acc = .ok acc := by
  match fuel, h with
  | fuel + 1, _ => rfl

/-- **C7**: for a well-formed object buffer whose body parses to the
component list `comps`, decoding under a type name `nameU` absent from
`_gwyddion_types` succeeds (no error: the `KeyError` falls back to the
generic `GwyObject`) and exposes exactly the components, insertion order
and typecodes `comps`; decoding the same body under any name `nameR`
yields `registryApply nameR comps` — i.e. a registered specialized type
receives exactly the same `(data, typecodes)` pair `comps` verbatim. -/
theorem claim_C7_unknown_type_fallback (fuel : Nat) (body : List Nat) (comps : GCompList)
    (nameU nameR : List Nat)
    (hU : validUtf8 nameU = true) (hUn : (0 : Nat) ∉ nameU)
    (hUreg : nameU ∉ registryNames)
    (hR : validUtf8 nameR = true) (hRn : (0 : Nat) ∉ nameR)
    (hlen : body.length < 4294967296)
    (hloop : frombufferLoop fuel body .nil = .ok comps) :
    frombuffer (fuel + 1) (objBuf nameU body []) =
      .ok (GObj.mk nameU comps, countCp nameU + 5 + body.length) ∧
    frombuffer (fuel + 1) (objBuf nameR body []) =
      .ok (registryApply nameR comps, countCp nameR + 5 + body.length) := by
  constructor
  · rw [frombuffer_objBuf fuel nameU body [] hUn hU hlen]
    simp only [hloop, registryApply_generic nameU comps hUreg]
  · rw [frombuffer_objBuf fuel nameR body [] hRn hR hlen]
    simp only [hloop]

/-- **C7** witness: the body `b'x\x00i\x05\x00\x00\x00'` decoded under the
unknown name `"Z"` and under the registered name `"GwySIUnit"`. -/
theorem claim_C7_witness :
    frombuffer 4 (objBuf [90] [120, 0, 105, 5, 0, 0, 0] []) =
      .ok (GObj.mk [90] (.cons (.mk [120] (.int 5) (some 105)) .nil), 13) ∧
    frombuffer 4 (objBuf (asciiBytes "GwySIUnit") [120, 0, 105, 5, 0, 0, 0] []) =
      .ok (GObj.mk (asciiBytes "GwySIUnit")
        (.cons (.mk [120] (.int 5) (some 105)) .nil), 21) :=
  claim_C7_unknown_type_fallback 3 [120, 0, 105, 5, 0, 0, 0]
    (.cons (.mk [120] (.int 5) (some 105)) .nil) [90] (asciiBytes "GwySIUnit")
    (by decide) (by decide) (by decide) (by decide) (by decide) (by decide) rfl

/-! ## C10: duplicate component names -/

/-- **C10** counterexample: the unconditional claim fails on registry type
names. The body of this `GwyGraphModel` object holds two components both
named `"x"` (`'i' 5`, then `'i' 7`); the component loop keeps the later
one, but `GwyGraphModel.__init__` never touches its `data` argument, so
the decoded object ends up with no components at all: it does not map
`"x"` to the second occurrence's value and typecode (its lookup is
`none`), even though both occurrences' bytes were consumed (32 reported).
-/
theorem claim_C10_counterexample :
    frombuffer 7 (objBuf (asciiBytes "GwyGraphModel")
        ([120, 0, 105, 5, 0, 0, 0] ++ [120, 0, 105, 7, 0, 0, 0]) []) =
      .ok (GObj.mk (asciiBytes "GwyGraphModel") .nil, 32) ∧
    GCompList.lookup (GObj.comps (GObj.mk (asciiBytes "GwyGraphModel") GCompList.nil))
      [120] = none :=
  ⟨rfl, rfl⟩

/-- **C10** (amended): the later-occurrence overwrite is a loop-level
fact — both occurrences' bytes are consumed and the second store wins in
the parsed component dict — and the decoded object exposes exactly that
result whenever the object's type name is not a `_gwyddion_types` key:
when the body consists of two serialized components `c1` and `c2`
carrying the same name `n`, decoding succeeds without error, the object
maps `n` to the value and typecode of the later (second) occurrence, the
body `c1 ++ c2` is consumed in full, and the object ends up with a
single component where the buffer encoded two. For registry type names
the wrapper applied after the loop can rewrite or drop the surviving
component (see the counterexample), so the claim does not hold for every
buffer. -/
theorem claim_C10_duplicate_names (f1 f2 : Nat) (name c1 c2 n : List Nat)
    (v1 v2 : GVal) (t1 t2 : Nat)
    (hname : validUtf8 name = true) (hnn : (0 : Nat) ∉ name)
    (hreg : name ∉ registryNames)
    (hc1 : c1 ≠ []) (hc2 : c2 ≠ [])
    (hlen : c1.length + c2.length < 4294967296)
    (h1 : component_from_buffer f1 (c1 ++ c2) = .ok (n, v1, t1, (c1.length : Int)))
    (h2 : component_from_buffer f2 c2 = .ok (n, v2, t2, (c2.length : Int))) :
    frombuffer (f1 + f2 + 3) (objBuf name (c1 ++ c2) []) =
      .ok (GObj.mk name (.cons (.mk n v2 (some t2)) .nil),
        countCp name + 5 + (c1.length + c2.length)) ∧
    GCompList.length (.cons (.mk n v2 (some t2)) .nil) = 1 := by
  have hf2 : 1 ≤ f2 := by
    rcases f2 with _ | f2
    · rw [component_from_buffer] at h2
      exact absurd h2 (by simp)
    · omega
  have hbl : (c1 ++ c2).length = c1.length + c2.length := by simp
  have hl2 : frombufferLoop (f1 + f2 + 1) c2 (.cons (.mk n v1 (some t1)) .nil) =
      .ok (.cons (.mk n v2 (some t2)) .nil) := by
    obtain ⟨b, rest, hbr⟩ : ∃ b rest, c2 = b :: rest := by
      rcases c2 with _ | ⟨b, rest⟩
      · exact absurd rfl hc2
      · exact ⟨b, rest, rfl⟩
    rw [hbr]
    unfold frombufferLoop
    rw [← hbr]
    have htail : pyTail c2 ((c2.length : Nat) : Int) = [] := by
      rw [pyTail_coe, List.drop_length]
    simp only [component_mono_le (show f2 ≤ f1 + f2 by omega) h2, htail,
      frombufferLoop_nil (f1 + f2) (by omega)]
    simp [odUpd, GComp.name]
  have hl1 : frombufferLoop (f1 + f2 + 2) (c1 ++ c2) .nil =
      .ok (.cons (.mk n v2 (some t2)) .nil) := by
    obtain ⟨b, rest, hbr⟩ : ∃ b rest, c1 ++ c2 = b :: rest := by
      rcases hcc : c1 ++ c2 with _ | ⟨b, rest⟩
      · rcases c1 with _ | _
        · exact absurd rfl hc1
        · simp at hcc
      · exact ⟨b, rest, rfl⟩
    rw [hbr]
    unfold frombufferLoop
    rw [← hbr]
    simp only [component_mono_le (show f1 ≤ f1 + f2 + 1 by omega) h1, pyTail_append]
    show frombufferLoop (f1 + f2 + 1) c2 (odUpd n v1 t1 .nil) = _
    have hupd : odUpd n v1 t1 .nil = .cons (.mk n v1 (some t1)) .nil := rfl
    rw [hupd, hl2]
  constructor
  · rw [frombuffer_objBuf (f1 + f2 + 2) name (c1 ++ c2) [] hnn hname
      (by rw [hbl]; exact hlen)]
    simp only [hl1, registryApply_generic name _ hreg, hbl]
  · rfl

/-- **C10** witness: two `'i'` components both named `"x"`, carrying 5 and
then 7; the decoded object holds the single component `x = 7`. -/
theorem claim_C10_witness :
    frombuffer 7 (objBuf [65] ([120, 0, 105, 5, 0, 0, 0] ++ [120, 0, 105, 7, 0, 0, 0]) []) =
      .ok (GObj.mk [65] (.cons (.mk [120] (.int 7) (some 105)) .nil), 20) ∧
    GCompList.length (.cons (.mk [120] (.int 7) (some 105)) .nil) = 1 :=
  claim_C10_duplicate_names 2 2 [65] [120, 0, 105, 5, 0, 0, 0] [120, 0, 105, 7, 0, 0, 0] [120]
    (.int 5) (.int 7) 105 105
    (by decide) (by decide) (by decide) (by decide) (by decide) (by decide) rfl rfl

theorem take_findIdx?_avoid (l : List Nat) (c : Nat) (k : Nat)
    (h : l.findIdx? (fun b => b == c) = some k) : ∀ x ∈ l.take k, x ≠ c := by
  induction l generalizing k with
  | nil => simp [List.findIdx?_nil] at h
  | cons a r ih =>
    rw [List.findIdx?_cons] at h
    by_cases hac : (a == c) = true
    · rw [if_pos hac] at h
      obtain rfl : (0 : Nat) = k := by simpa using h
      simp
    · rw [if_neg hac, List.findIdx?_succ, Option.map_eq_some'] at h
      obtain ⟨k2, hk2, hke⟩ := h
      subst hke
      intro x hx
      rw [List.take_succ_cons] at hx
      rcases List.mem_cons.mp hx with rfl | hxr
      · exact fun hh => hac (by simp [hh])
      · exact ih k2 hk2 x hxr

theorem findIdx?_none_avoid (l : List Nat) (c : Nat)
    (h : l.findIdx? (fun b => b == c) = none) : ∀ x ∈ l, x ≠ c := by
  intro x hx hc
  subst hc
  have h2 := List.findIdx?_eq_none_iff.mp h x hx
  simp at h2

theorem pySlice_mem {buf : List Nat} {i j : Int} {x : Nat}
    (h : x ∈ pySlice buf i j) : x ∈ buf := by
  rw [pySlice] at h
  exact List.mem_of_mem_take (List.mem_of_mem_drop h)

theorem pyTail_mem {buf : List Nat} {i : Int} {x : Nat}
    (h : x ∈ pyTail buf i) : x ∈ buf := pySlice_mem h

/-- The bytes of `buf[start:buf.find(c, start)]` never equal `c` — also in
the `find = -1` case, where no `c` occurs from `start` on at all. -/
theorem find_slice_avoid (buf : List Nat) (c : Nat) (start : Int) :
    ∀ x ∈ pySlice buf start (pyFind buf c start), x ≠ c := by
  intro x hx
  rw [pyFind] at hx
  rcases hf : (buf.drop (pyIdx buf.length start)).findIdx? (fun b => b == c) with _ | k
  · rw [hf] at hx
    apply findIdx?_none_avoid _ _ hf x
    rw [pySlice] at hx
    rw [List.drop_take] at hx
    exact List.mem_of_mem_take hx
  · rw [hf] at hx
    have hcast : pyIdx buf.length ((pyIdx buf.length start + k : Nat) : Int) =
        min (pyIdx buf.length start + k) buf.length := pyIdx_coe _ _
    rw [pySlice, hcast] at hx
    apply take_findIdx?_avoid _ _ _ hf x
    rw [List.drop_take] at hx
    have hsub : min (pyIdx buf.length start + k) buf.length - pyIdx buf.length start ≤ k := by
      omega
    have h2 : (buf.drop (pyIdx buf.length start)).take
        (min (pyIdx buf.length start + k) buf.length - pyIdx buf.length start) =
        ((buf.drop (pyIdx buf.length start)).take k).take
          (min (pyIdx buf.length start + k) buf.length - pyIdx buf.length start) := by
      rw [List.take_take, Nat.min_eq_left hsub]
    rw [h2] at hx
    exact List.mem_of_mem_take hx

theorem contains_zero_eq_false (l : List Nat) (h : ∀ x ∈ l, x ≠ 0) :
    l.contains 0 = false := by
  rw [Bool.eq_false_iff]
  intro hc
  rw [List.contains_eq_any_beq, List.any_eq_true] at hc
  obtain ⟨x, hx, he⟩ := hc
  have hxe : (0 : Nat) = x := by simpa using he
  exact h x hx hxe.symm

theorem leVal_lt (l : List Nat) (hb : ∀ x ∈ l, x < 256) :
    leVal l < 256 ^ l.length := by
  induction l with
  | nil => simp [leVal]
  | cons b r ih =>
    have hb1 : b < 256 := hb b (by simp)
    have ihr := ih (fun x hx => hb x (by simp [hx]))
    simp only [leVal, List.length_cons, pow_succ]
    omega

theorem unpackU32_bound {l : List Nat} {u : Nat} (hb : ∀ x ∈ l, x < 256)
    (h : unpackU32 l = some u) : u < 4294967296 := by
  rw [unpackU32] at h
  split at h
  · rename_i hlen
    obtain rfl : leVal l = u := by simpa using h
    have h2 := leVal_lt l hb
    rw [hlen] at h2
    norm_num at h2
    exact h2
  · simp at h

theorem unpackU64_bound {l : List Nat} {u : Nat} (hb : ∀ x ∈ l, x < 256)
    (h : unpackU64 l = some u) : u < 18446744073709551616 := by
  rw [unpackU64] at h
  split at h
  · rename_i hlen
    obtain rfl : leVal l = u := by simpa using h
    have h2 := leVal_lt l hb
    rw [hlen] at h2
    norm_num at h2
    exact h2
  · simp at h

theorem unpackI32_range {l : List Nat} {i : Int} (hb : ∀ x ∈ l, x < 256)
    (h : unpackI32 l = some i) : -2147483648 ≤ i ∧ i < 2147483648 := by
  rw [unpackI32, Option.map_eq_some'] at h
  obtain ⟨u, hu, rfl⟩ := h
  have hub := unpackU32_bound hb hu
  unfold u32ToInt
  split <;> omega

theorem unpackI64_range {l : List Nat} {i : Int} (hb : ∀ x ∈ l, x < 256)
    (h : unpackI64 l = some i) :
    -9223372036854775808 ≤ i ∧ i < 9223372036854775808 := by
  rw [unpackI64, Option.map_eq_some'] at h
  obtain ⟨u, hu, rfl⟩ := h
  have hub := unpackU64_bound hb hu
  unfold u64ToInt
  split <;> omega

theorem i32ofChunk_range {l : List Nat} (hl : l.length = 4) (hb : ∀ x ∈ l, x < 256) :
    -2147483648 ≤ i32ofChunk l ∧ i32ofChunk l < 2147483648 := by
  have h2 := leVal_lt l hb
  rw [hl] at h2
  norm_num at h2
  unfold i32ofChunk u32ToInt
  split <;> omega

theorem i64ofChunk_range {l : List Nat} (hl : l.length = 8) (hb : ∀ x ∈ l, x < 256) :
    -9223372036854775808 ≤ i64ofChunk l ∧ i64ofChunk l < 9223372036854775808 := by
  have h2 := leVal_lt l hb
  rw [hl] at h2
  norm_num at h2
  unfold i64ofChunk u64ToInt
  split <;> omega

theorem takeChunks_spec {k : Nat} :
    ∀ (m : Nat) (s : List Nat), s.length = k * m →
      ∀ c ∈ takeChunks k m s, c.length = k ∧ ∀ x ∈ c, x ∈ s := by
  intro m
  induction m with
  | zero => simp [takeChunks]
  | succ m ih =>
    intro s hlen c hc
    rw [takeChunks] at hc
    rcases List.mem_cons.mp hc with rfl | hcr
    · refine ⟨?_, fun x hx => List.mem_of_mem_take hx⟩
      rw [List.length_take]
      have : k ≤ s.length := by
        rw [hlen]
        calc k = k * 1 := by omega
        _ ≤ k * (m + 1) := by exact Nat.mul_le_mul_left k (by omega)
      omega
    · have hdl : (s.drop k).length = k * m := by
        rw [List.length_drop, hlen]
        have : k * (m + 1) = k * m + k := by ring
        omega
      obtain ⟨h1, h2⟩ := ih (s.drop k) hdl c hcr
      exact ⟨h1, fun x hx => List.mem_of_mem_drop (h2 x hx)⟩

theorem sLoop_elems (buf : List Nat) :
    ∀ (n : Nat) (endpos : Int) (items : List (List Nat)) (e : Int),
      sLoop buf n endpos = .ok (items, e) →
      ∀ s ∈ items, (∀ x ∈ s, (x ∈ buf ∧ x ≠ 0)) ∧ validUtf8 s = true := by
  intro n
  induction n with
  | zero =>
    intro endpos items e h
    obtain ⟨rfl, rfl⟩ : ([] : List (List Nat)) = items ∧ endpos = e := by
      simpa [sLoop] using h
    simp
  | succ m ih =>
    intro endpos items e h
    rw [sLoop] at h
    split at h
    · exact absurd h (by simp)
    · rename_i hv
      split at h
      · rename_i items2 e2 hs
        obtain ⟨rfl, rfl⟩ :
            pySlice buf endpos (pyFind buf 0 endpos) :: items2 = items ∧ e2 = e := by
          simpa using h
        intro s hs2
        rcases List.mem_cons.mp hs2 with rfl | hmem
        · exact ⟨fun x hx => ⟨pySlice_mem hx, find_slice_avoid buf 0 endpos x hx⟩,
            by simpa using hv⟩
        · exact ih _ _ _ hs s hmem
      · exact absurd h (by simp)
      · exact absurd h (by simp)

def GCompList.toList : GCompList → List GComp
  | .nil => []
  | .cons c r => c :: r.toList

/-- Conditional well-formedness of one parsed component: the name facts are
unconditional; value/typecode agreement holds whenever the value is
registry-free with ASCII object names. -/
def compOK (c : GComp) : Prop :=
  (∀ x ∈ c.name, x ≠ 0) ∧ validUtf8 c.name = true ∧
    ∃ tc, c.tc = some tc ∧ (rfaVal c.value = true → wfVal tc c.value = true)

theorem distinctKeys_iff_nodup (l : List (List Nat)) :
    distinctKeys l = true ↔ l.Nodup := by
  induction l with
  | nil => simp [distinctKeys]
  | cons x r ih =>
    rw [distinctKeys, List.nodup_cons, Bool.and_eq_true, ih]
    constructor
    · rintro ⟨h1, h2⟩
      refine ⟨?_, h2⟩
      intro hmem
      rw [Bool.not_eq_true'] at h1
      rw [Bool.eq_false_iff] at h1
      exact h1 (by rw [List.contains_eq_any_beq, List.any_eq_true]; exact ⟨x, hmem, by simp⟩)
    · rintro ⟨h1, h2⟩
      refine ⟨?_, h2⟩
      rw [Bool.not_eq_true', Bool.eq_false_iff]
      intro hc
      rw [List.contains_eq_any_beq, List.any_eq_true] at hc
      obtain ⟨y, hy, he⟩ := hc
      have : x = y := by simpa using he
      exact h1 (this ▸ hy)

theorem namesOf_odUpd (k : List Nat) (v : GVal) (t : Nat) (l : GCompList) :
    namesOf (odUpd k v t l) =
      if k ∈ namesOf l then namesOf l else namesOf l ++ [k] := by
  induction l using clistInduction with
  | hnil => simp [odUpd, namesOf, GComp.name]
  | hcons c rest ih =>
    obtain ⟨cn, cv, ct⟩ := c
    by_cases h : cn = k
    · rw [odUpd, if_pos (by simpa [GComp.name] using h)]
      simp [namesOf, GComp.name, h]
    · rw [odUpd, if_neg (by simpa [GComp.name] using h)]
      rw [namesOf, namesOf, ih]
      simp only [GComp.name]
      by_cases h2 : k ∈ namesOf rest
      · rw [if_pos h2, if_pos (by simp [List.mem_cons, h2])]
      · rw [if_neg h2, if_neg (by
          simp only [List.mem_cons]
          rintro (rfl | hmem)
          · exact h rfl
          · exact h2 hmem)]
        simp

theorem odUpd_distinct {k : List Nat} {v : GVal} {t : Nat} {l : GCompList}
    (h : distinctKeys (namesOf l) = true) :
    distinctKeys (namesOf (odUpd k v t l)) = true := by
  rw [distinctKeys_iff_nodup] at h ⊢
  rw [namesOf_odUpd]
  by_cases h2 : k ∈ namesOf l
  · rw [if_pos h2]; exact h
  · rw [if_neg h2]
    simpa [List.nodup_append] using ⟨h, fun hh => h2 hh⟩

theorem odUpd_mem {k : List Nat} {v : GVal} {t : Nat} {l : GCompList} {c : GComp}
    (hc : c ∈ (odUpd k v t l).toList) :
    c ∈ l.toList ∨ c = GComp.mk k v (some t) := by
  induction l using clistInduction with
  | hnil =>
    simp only [odUpd, GCompList.toList, List.mem_singleton] at hc
    exact Or.inr hc
  | hcons c2 rest ih =>
    by_cases h : c2.name = k
    · rw [odUpd, if_pos h] at hc
      simp only [GCompList.toList, List.mem_cons] at hc ⊢
      rcases hc with rfl | hc
      · exact Or.inr rfl
      · exact Or.inl (Or.inr hc)
    · rw [odUpd, if_neg h] at hc
      simp only [GCompList.toList, List.mem_cons] at hc ⊢
      rcases hc with rfl | hc
      · exact Or.inl (Or.inl rfl)
      · rcases ih hc with h2 | h2
        · exact Or.inl (Or.inr h2)
        · exact Or.inr h2

theorem odUpd_compOK {k : List Nat} {v : GVal} {t : Nat} {l : GCompList}
    (hl : ∀ c ∈ l.toList, compOK c) (hc : compOK (GComp.mk k v (some t))) :
    ∀ c ∈ (odUpd k v t l).toList, compOK c := by
  intro c hmem
  rcases odUpd_mem hmem with h | rfl
  · exact hl c h
  · exact hc

theorem wfComps_of_compOK (l : GCompList) (h : ∀ c ∈ l.toList, compOK c)
    (hrfa : rfaComps l = true) : wfComps l = true := by
  induction l using clistInduction with
  | hnil => rfl
  | hcons c rest ih =>
    obtain ⟨n, v, tcf⟩ := c
    rw [rfaComps, Bool.and_eq_true] at hrfa
    obtain ⟨hrv, hrr⟩ := hrfa
    have hhead := h (GComp.mk n v tcf) (by rw [GCompList.toList]; exact List.mem_cons_self _ _)
    obtain ⟨hn0, hnv, tc, htc, hwf⟩ := hhead
    simp only [GComp.name, GComp.tc, GComp.value] at hn0 hnv htc
    obtain rfl : tcf = some tc := htc
    show ((!(n.contains 0)) && validUtf8 n && wfVal tc v && wfComps rest) = true
    rw [Bool.and_eq_true, Bool.and_eq_true, Bool.and_eq_true]
    refine ⟨⟨⟨?_, hnv⟩, hwf hrv⟩, ih (fun c2 hc2 => h c2 (by
      rw [GCompList.toList]
      exact List.mem_cons_of_mem _ hc2)) hrr⟩
    rw [contains_zero_eq_false n hn0]
    rfl

theorem registryApply_name (name : List Nat) (comps : GCompList) :
    (registryApply name comps).name = name := by
  unfold registryApply
  split
  · rfl
  · split
    · rfl
    · split
      · rfl
      · split <;> rfl

theorem rfaObj_name_not_reg {T : GObj} (h : rfaObj T = true) :
    T.name ∉ registryNames := by
  obtain ⟨name, comps⟩ := T
  rw [rfaObj, Bool.and_eq_true, Bool.and_eq_true] at h
  simpa [GObj.name] using h.1.1

theorem decode_wf (fuel : Nat) :
    (∀ buf T n, (∀ x ∈ buf, x < 256) → frombuffer fuel buf = .ok (T, n) →
      rfaObj T = true → wfObj T = true) ∧
    (∀ buf acc comps, (∀ x ∈ buf, x < 256) → frombufferLoop fuel buf acc = .ok comps →
      (∀ c ∈ acc.toList, compOK c) → distinctKeys (namesOf acc) = true →
      (∀ c ∈ comps.toList, compOK c) ∧ distinctKeys (namesOf comps) = true) ∧
    (∀ buf nm v t sz, (∀ x ∈ buf, x < 256) →
      component_from_buffer fuel buf = .ok (nm, v, t, sz) →
      compOK (GComp.mk nm v (some t))) ∧
    (∀ buf nameB t pos nm v t2 sz, (∀ x ∈ buf, x < 256) →
      componentPayload fuel buf nameB t pos = .ok (nm, v, t2, sz) →
      nm = nameB ∧ t2 = t ∧ (rfaVal v = true → wfVal t v = true)) ∧
    (∀ buf k endpos objs e, (∀ x ∈ buf, x < 256) →
      oLoop fuel buf k endpos = .ok (objs, e) →
      rfaObjList objs = true → wfObjList objs = true) := by
  induction fuel with
  | zero =>
    exact ⟨fun buf T n _ h => absurd h (by simp [frombuffer]),
      fun buf acc comps _ h => absurd h (by simp [frombufferLoop]),
      fun buf nm v t sz _ h => absurd h (by simp [component_from_buffer]),
      fun buf nameB t pos nm v t2 sz _ h => absurd h (by simp [componentPayload]),
      fun buf k endpos objs e _ h => absurd h (by simp [oLoop])⟩
  | succ fuel ih =>
    obtain ⟨ihF, ihL, ihC, ihP, ihO⟩ := ih
    refine ⟨?_, ?_, ?_, ?_, ?_⟩
    · -- frombuffer
      intro buf T n hb h hrfa
      unfold frombuffer at h
      split at h
      · exact absurd h (by simp)
      · rename_i hv
        split at h
        · exact absurd h (by simp)
        · rename_i usize hu
          split at h
          · rename_i comps hl
            obtain ⟨rfl, rfl⟩ :
                registryApply (pySlice buf 0 (pyFind buf 0 0)) comps = T ∧ _ = n := by
              simpa using h
            have hvname : validUtf8 (pySlice buf 0 (pyFind buf 0 0)) = true := by
              simpa using hv
            have hname0 : ∀ x ∈ pySlice buf 0 (pyFind buf 0 0), x ≠ 0 :=
              find_slice_avoid buf 0 0
            have hgen : registryApply (pySlice buf 0 (pyFind buf 0 0)) comps =
                GObj.mk (pySlice buf 0 (pyFind buf 0 0)) comps := by
              apply registryApply_generic
              have h2 := rfaObj_name_not_reg hrfa
              rwa [registryApply_name] at h2
            rw [hgen] at hrfa ⊢
            rw [rfaObj, Bool.and_eq_true, Bool.and_eq_true] at hrfa
            obtain ⟨⟨_, _⟩, hrc⟩ := hrfa
            have hbody : ∀ x ∈ pySlice buf (pyFind buf 0 0 + 5)
                (pyFind buf 0 0 + 5 + (usize : Int)), x < 256 :=
              fun x hx => hb x (pySlice_mem hx)
            obtain ⟨hok, hdk⟩ := ihL _ _ _ hbody hl (by simp [GCompList.toList]) rfl
            rw [wfObj, Bool.and_eq_true, Bool.and_eq_true, Bool.and_eq_true]
            exact ⟨⟨⟨by rw [contains_zero_eq_false _ hname0]; rfl, hvname⟩,
              wfComps_of_compOK comps hok hrc⟩, hdk⟩
          · exact absurd h (by simp)
          · exact absurd h (by simp)
    · -- frombufferLoop
      intro buf acc comps hb h hacc hdk
      cases buf with
      | nil =>
        obtain rfl : acc = comps := by simpa [frombufferLoop] using h
        exact ⟨hacc, hdk⟩
      | cons b rest =>
        unfold frombufferLoop at h
        split at h
        · rename_i nm v t sz hc
          have hcok := ihC _ _ _ _ _ hb hc
          exact ihL _ _ _ (fun x hx => hb x (pyTail_mem hx)) h
            (odUpd_compOK hacc hcok) (odUpd_distinct hdk)
        · exact absurd h (by simp)
        · exact absurd h (by simp)
    · -- component_from_buffer
      intro buf nm v t sz hb h
      unfold component_from_buffer at h
      split at h
      · exact absurd h (by simp)
      · rename_i hv
        split at h
        · exact absurd h (by simp)
        · rename_i tb tbr hsl
          split at h
          · exact absurd h (by simp)
          · rename_i htb
            obtain ⟨rfl, rfl, hwf⟩ := ihP _ _ _ _ _ _ _ _ hb h
            exact ⟨find_slice_avoid buf 0 0, by simpa using hv, t, rfl, hwf⟩
    · -- componentPayload
      intro buf nameB t pos nm v t2 sz hb h
      unfold componentPayload at h
      by_cases h111 : t = 111
      · subst h111
        rw [if_pos rfl] at h
        split at h
        · rename_i o osize hF
          obtain ⟨rfl, rfl, rfl, rfl⟩ :
              nameB = nm ∧ GVal.obj o = v ∧ 111 = t2 ∧ pos + (osize : Int) = sz := by
            simpa using h
          refine ⟨rfl, rfl, fun hr => ?_⟩
          rw [wfVal]
          simp only [beq_self_eq_true, Bool.true_and]
          exact ihF _ _ _ (fun x hx => hb x (pyTail_mem hx)) hF (by simpa [rfaVal] using hr)
        · exact absurd h (by simp)
        · exact absurd h (by simp)
      rw [if_neg h111] at h
      by_cases h115 : t = 115
      · subst h115
        rw [if_pos rfl] at h
        split at h
        · exact absurd h (by simp)
        · rename_i hvs
          obtain ⟨rfl, rfl, rfl, rfl⟩ :
              nameB = nm ∧ GVal.str (pySlice buf pos (pyFind buf 0 pos)) = v ∧
                115 = t2 ∧ pyFind buf 0 pos + 1 = sz := by
            simpa using h
          refine ⟨rfl, rfl, fun _ => ?_⟩
          show ((!(pySlice buf pos (pyFind buf 0 pos)).contains 0) &&
            validUtf8 (pySlice buf pos (pyFind buf 0 pos))) = true
          rw [Bool.and_eq_true]
          refine ⟨?_, by simpa using hvs⟩
          rw [contains_zero_eq_false _ (find_slice_avoid buf 0 pos)]
          rfl
      rw [if_neg h115] at h
      by_cases h98 : t = 98
      · subst h98
        rw [if_pos rfl] at h
        split at h
        · rename_i x hx
          obtain ⟨rfl, rfl, rfl, rfl⟩ :
              nameB = nm ∧ GVal.boolean (x != 0) = v ∧ 98 = t2 ∧ pos + 1 = sz := by
            simpa using h
          exact ⟨rfl, rfl, fun _ => rfl⟩
        · exact absurd h (by simp)
      rw [if_neg h98] at h
      by_cases h99 : t = 99
      · subst h99
        rw [if_pos rfl] at h
        split at h
        · rename_i x hx
          split at h
          · exact absurd h (by simp)
          · rename_i hx128
            obtain ⟨rfl, rfl, rfl, rfl⟩ :
                nameB = nm ∧ GVal.str [x] = v ∧ 99 = t2 ∧ pos + 1 = sz := by
              simpa using h
            refine ⟨rfl, rfl, fun _ => ?_⟩
            show decide (x ≤ 127) = true
            simp only [decide_eq_true_eq]
            omega
        · exact absurd h (by simp)
      rw [if_neg h99] at h
      by_cases h105 : t = 105
      · subst h105
        rw [if_pos rfl] at h
        split at h
        · rename_i i hi
          obtain ⟨rfl, rfl, rfl, rfl⟩ :
              nameB = nm ∧ GVal.int i = v ∧ 105 = t2 ∧ pos + 4 = sz := by
            simpa using h
          refine ⟨rfl, rfl, fun _ => ?_⟩
          rw [wfVal, if_pos rfl]
          simp only [decide_eq_true_eq]
          exact unpackI32_range (fun x hx => hb x (pySlice_mem hx)) hi
        · exact absurd h (by simp)
      rw [if_neg h105] at h
      by_cases h113 : t = 113
      · subst h113
        rw [if_pos rfl] at h
        split at h
        · rename_i i hi
          obtain ⟨rfl, rfl, rfl, rfl⟩ :
              nameB = nm ∧ GVal.int i = v ∧ 113 = t2 ∧ pos + 8 = sz := by
            simpa using h
          refine ⟨rfl, rfl, fun _ => ?_⟩
          rw [wfVal, if_neg (by omega), if_pos rfl]
          simp only [decide_eq_true_eq]
          exact unpackI64_range (fun x hx => hb x (pySlice_mem hx)) hi
        · exact absurd h (by simp)
      rw [if_neg h113] at h
      by_cases h100 : t = 100
      · subst h100
        rw [if_pos rfl] at h
        split at h
        · rename_i hlen8
          obtain ⟨rfl, rfl, rfl, rfl⟩ :
              nameB = nm ∧ GVal.double (pySlice buf pos (pos + 8)) = v ∧
                100 = t2 ∧ pos + 8 = sz := by
            simpa using h
          refine ⟨rfl, rfl, fun _ => ?_⟩
          rw [wfVal]
          simp [hlen8]
        · exact absurd h (by simp)
      rw [if_neg h100] at h
      by_cases h67 : t = 67
      · rw [if_pos h67] at h
        exact absurd h (by simp)
      rw [if_neg h67] at h
      by_cases h73 : t = 73
      · subst h73
        rw [if_pos rfl] at h
        split at h
        · exact absurd h (by simp)
        · rename_i numitems hnum
          split at h
          · rename_i hmod
            obtain ⟨rfl, rfl, rfl, rfl⟩ :
                nameB = nm ∧
                GVal.arrI ((takeChunks 4
                  ((pySlice buf (pos + 4) (pos + 4 + 4 * (numitems : Int))).length / 4)
                  (pySlice buf (pos + 4) (pos + 4 + 4 * (numitems : Int)))).map i32ofChunk) = v ∧
                73 = t2 ∧ pos + 4 + 4 * (numitems : Int) = sz := by
              simpa using h
            refine ⟨rfl, rfl, fun _ => ?_⟩
            rw [wfVal]
            simp only [beq_self_eq_true, Bool.true_and, List.all_eq_true, List.mem_map]
            rintro i ⟨c, hc, rfl⟩
            have hspec := takeChunks_spec _ _ ((Nat.mul_div_cancel' (Nat.dvd_of_mod_eq_zero hmod)).symm) c hc
            simp only [decide_eq_true_eq]
            exact i32ofChunk_range hspec.1
              (fun x hx => hb x (pySlice_mem (hspec.2 x hx)))
          · exact absurd h (by simp)
      rw [if_neg h73] at h
      by_cases h81 : t = 81
      · subst h81
        rw [if_pos rfl] at h
        split at h
        · exact absurd h (by simp)
        · rename_i numitems hnum
          split at h
          · rename_i hmod
            obtain ⟨rfl, rfl, rfl, rfl⟩ :
                nameB = nm ∧
                GVal.arrQ ((takeChunks 8
                  ((pySlice buf (pos + 4) (pos + 4 + 8 * (numitems : Int))).length / 8)
                  (pySlice buf (pos + 4) (pos + 4 + 8 * (numitems : Int)))).map i64ofChunk) = v ∧
                81 = t2 ∧ pos + 4 + 8 * (numitems : Int) = sz := by
              simpa using h
            refine ⟨rfl, rfl, fun _ => ?_⟩
            rw [wfVal]
            simp only [beq_self_eq_true, Bool.true_and, List.all_eq_true, List.mem_map]
            rintro i ⟨c, hc, rfl⟩
            have hspec := takeChunks_spec _ _ ((Nat.mul_div_cancel' (Nat.dvd_of_mod_eq_zero hmod)).symm) c hc
            simp only [decide_eq_true_eq]
            exact i64ofChunk_range hspec.1
              (fun x hx => hb x (pySlice_mem (hspec.2 x hx)))
          · exact absurd h (by simp)
      rw [if_neg h81] at h
      by_cases h68 : t = 68
      · subst h68
        rw [if_pos rfl] at h
        split at h
        · exact absurd h (by simp)
        · rename_i numitems hnum
          split at h
          · rename_i hmod
            obtain ⟨rfl, rfl, rfl, rfl⟩ :
                nameB = nm ∧
                GVal.arrD (takeChunks 8
                  ((pySlice buf (pos + 4) (pos + 4 + 8 * (numitems : Int))).length / 8)
                  (pySlice buf (pos + 4) (pos + 4 + 8 * (numitems : Int)))) = v ∧
                68 = t2 ∧ pos + 4 + 8 * (numitems : Int) = sz := by
              simpa using h
            refine ⟨rfl, rfl, fun _ => ?_⟩
            rw [wfVal]
            simp only [beq_self_eq_true, Bool.true_and, List.all_eq_true]
            intro c hc
            have hspec := takeChunks_spec _ _ ((Nat.mul_div_cancel' (Nat.dvd_of_mod_eq_zero hmod)).symm) c hc
            simp [hspec.1]
          · exact absurd h (by simp)
      rw [if_neg h68] at h
      by_cases h83 : t = 83
      · subst h83
        rw [if_pos rfl] at h
        split at h
        · exact absurd h (by simp)
        · rename_i numitems hnum
          split at h
          · rename_i items e hs
            obtain ⟨rfl, rfl, rfl, rfl⟩ :
                nameB = nm ∧ GVal.strArr items = v ∧ 83 = t2 ∧ e = sz := by
              simpa using h
            refine ⟨rfl, rfl, fun _ => ?_⟩
            rw [wfVal]
            simp only [beq_self_eq_true, Bool.true_and, List.all_eq_true]
            intro s hsm
            obtain ⟨h0, hvu⟩ := sLoop_elems buf _ _ _ _ hs s hsm
            rw [Bool.and_eq_true]
            refine ⟨?_, hvu⟩
            rw [contains_zero_eq_false _ (fun x hx => (h0 x hx).2)]
            rfl
          · exact absurd h (by simp)
          · exact absurd h (by simp)
      rw [if_neg h83] at h
      by_cases h79 : t = 79
      · subst h79
        rw [if_pos rfl] at h
        split at h
        · exact absurd h (by simp)
        · rename_i numitems hnum
          split at h
          · rename_i objs e hO
            obtain ⟨rfl, rfl, rfl, rfl⟩ :
                nameB = nm ∧ GVal.objArr objs = v ∧ 79 = t2 ∧ e = sz := by
              simpa using h
            refine ⟨rfl, rfl, fun hr => ?_⟩
            rw [wfVal]
            simp only [beq_self_eq_true, Bool.true_and]
            exact ihO _ _ _ _ _ hb hO (by simpa [rfaVal] using hr)
          · exact absurd h (by simp)
          · exact absurd h (by simp)
      rw [if_neg h79] at h
      exact absurd h (by simp)
    · -- oLoop
      intro buf k endpos objs e hb h hrfa
      cases k with
      | zero =>
        obtain ⟨rfl, rfl⟩ : GObjList.nil = objs ∧ endpos = e := by
          simpa [oLoop] using h
        rfl
      | succ m =>
        unfold oLoop at h
        split at h
        · rename_i o osize hF
          split at h
          · rename_i objs2 e2 hO
            obtain ⟨rfl, rfl⟩ : GObjList.cons o objs2 = objs ∧ e2 = e := by
              simpa using h
            rw [rfaObjList, Bool.and_eq_true] at hrfa
            rw [wfObjList, Bool.and_eq_true]
            exact ⟨ihF _ _ _ (fun x hx => hb x (pyTail_mem hx)) hF hrfa.1,
              ihO _ _ _ _ _ hb hO hrfa.2⟩
          · exact absurd h (by simp)
          · exact absurd h (by simp)
        · exact absurd h (by simp)
        · exact absurd h (by simp)

theorem oLoop_mono_le {f1 f2 : Nat} (h : f1 ≤ f2) {buf : List Nat} {n : Nat} {endpos : Int}
    {r : GObjList × Int} (hd : oLoop f1 buf n endpos = .ok r) : oLoop f2 buf n endpos = .ok r := by
  induction h with
  | refl => exact hd
  | step _ ih => exact (decoder_mono _).2.2.2.2 _ _ _ _ ih

theorem countCp_ascii (l : List Nat) (h : ∀ b ∈ l, b ≤ 127) : countCp l = l.length := by
  rw [countCp, List.filter_eq_self.mpr]
  intro a ha
  have hb := h a ha
  simp [contB]
  omega

def GCompList.app : GCompList → GCompList → GCompList
  | .nil, l => l
  | .cons c r, l => .cons c (GCompList.app r l)

theorem GCompList.app_assoc_cons (a : GCompList) (c : GComp) (b : GCompList) :
    GCompList.app (GCompList.app a (.cons c .nil)) b = GCompList.app a (.cons c b) := by
  induction a using clistInduction with
  | hnil => rfl
  | hcons c2 r ih => show GCompList.cons c2 _ = GCompList.cons c2 _; rw [ih]

theorem namesOf_app (a b : GCompList) :
    namesOf (GCompList.app a b) = namesOf a ++ namesOf b := by
  induction a using clistInduction with
  | hnil => rfl
  | hcons c r ih => show c.name :: _ = _; rw [ih]; rfl

theorem odUpd_fresh (k : List Nat) (v : GVal) (t : Nat) (l : GCompList)
    (h : k ∉ namesOf l) : odUpd k v t l = GCompList.app l (.cons (.mk k v (some t)) .nil) := by
  induction l using clistInduction with
  | hnil => rfl
  | hcons c r ih =>
    have hk : ¬ c.name = k := by
      intro he
      exact h (he ▸ List.mem_cons_self c.name (namesOf r))
    rw [odUpd, if_neg hk]
    exact congrArg (GCompList.cons c) (ih (fun hm => h (List.mem_cons_of_mem _ hm)))

theorem leVal_leBytes8 (n : Nat) : leVal (leBytes8 n) = n % 18446744073709551616 := by
  simp only [leVal, leBytes8]
  omega

theorem unpackU64_leBytes8 (n : Nat) (h : n < 18446744073709551616) :
    unpackU64 (leBytes8 n) = some n := by
  rw [unpackU64, if_pos (by rfl), leVal_leBytes8]
  congr 1
  omega

theorem unpackI32_packI32 {i : Int} {l : List Nat} (h : packI32 i = some l) :
    unpackI32 l = some i := by
  rw [packI32] at h
  split at h
  · rename_i hr
    obtain rfl : leBytes4 (i.emod 4294967296).toNat = l := by simpa using h
    have he : i.emod 4294967296 = i % 4294967296 := rfl
    have h0 : 0 ≤ i % 4294967296 := Int.emod_nonneg i (by norm_num)
    have h1 : i % 4294967296 < 4294967296 := Int.emod_lt_of_pos i (by norm_num)
    rw [unpackI32, unpackU32, if_pos (by rfl), leVal_leBytes4, Option.map_some', he,
      Nat.mod_eq_of_lt (by omega)]
    congr 1
    rw [u32ToInt]
    split <;> omega
  · exact absurd h (by simp)

theorem unpackI64_packI64 {i : Int} {l : List Nat} (h : packI64 i = some l) :
    unpackI64 l = some i := by
  rw [packI64] at h
  split at h
  · rename_i hr
    obtain rfl : leBytes8 (i.emod 18446744073709551616).toNat = l := by simpa using h
    have he : i.emod 18446744073709551616 = i % 18446744073709551616 := rfl
    have h0 : 0 ≤ i % 18446744073709551616 := Int.emod_nonneg i (by norm_num)
    have h1 : i % 18446744073709551616 < 18446744073709551616 :=
      Int.emod_lt_of_pos i (by norm_num)
    rw [unpackI64, unpackU64, if_pos (by rfl), leVal_leBytes8, Option.map_some', he,
      Nat.mod_eq_of_lt (by omega)]
    congr 1
    rw [u64ToInt]
    split <;> omega
  · exact absurd h (by simp)

theorem i32ofChunk_truncI32 {i : Int} (h1 : -2147483648 ≤ i) (h2 : i < 2147483648) :
    i32ofChunk (truncI32 i) = i := by
  have he : i.emod 4294967296 = i % 4294967296 := rfl
  have h0 : 0 ≤ i % 4294967296 := Int.emod_nonneg i (by norm_num)
  have h3 : i % 4294967296 < 4294967296 := Int.emod_lt_of_pos i (by norm_num)
  rw [i32ofChunk, truncI32, leVal_leBytes4, he, Nat.mod_eq_of_lt (by omega), u32ToInt]
  split <;> omega

theorem i64ofChunk_truncI64 {i : Int} (h1 : -9223372036854775808 ≤ i)
    (h2 : i < 9223372036854775808) : i64ofChunk (truncI64 i) = i := by
  have he : i.emod 18446744073709551616 = i % 18446744073709551616 := rfl
  have h0 : 0 ≤ i % 18446744073709551616 := Int.emod_nonneg i (by norm_num)
  have h3 : i % 18446744073709551616 < 18446744073709551616 :=
    Int.emod_lt_of_pos i (by norm_num)
  rw [i64ofChunk, truncI64, leVal_leBytes8, he, Nat.mod_eq_of_lt (by omega), u64ToInt]
  split <;> omega

theorem leBytes4_length (n : Nat) : (leBytes4 n).length = 4 := rfl

theorem leBytes8_length (n : Nat) : (leBytes8 n).length = 8 := rfl

theorem truncI32_length (i : Int) : (truncI32 i).length = 4 := rfl

theorem truncI64_length (i : Int) : (truncI64 i).length = 8 := rfl

theorem takeChunks_flatten {k : Nat} (cs : List (List Nat))
    (h : ∀ c ∈ cs, c.length = k) : takeChunks k cs.length cs.flatten = cs := by
  induction cs with
  | nil => rfl
  | cons c r ih =>
    have hc : c.length = k := h c (List.mem_cons_self c r)
    show takeChunks k (r.length + 1) ((c :: r).flatten) = c :: r
    rw [List.flatten_cons, takeChunks, ← hc, List.take_left, List.drop_left, hc,
      ih (fun c2 hc2 => h c2 (List.mem_cons_of_mem _ hc2))]

theorem flatten_length_const {k : Nat} (cs : List (List Nat))
    (h : ∀ c ∈ cs, c.length = k) : cs.flatten.length = k * cs.length := by
  induction cs with
  | nil => simp
  | cons c r ih =>
    rw [List.flatten_cons, List.length_append, List.length_cons,
      ih (fun c2 hc2 => h c2 (List.mem_cons_of_mem _ hc2)), h c (List.mem_cons_self c r)]
    ring

theorem pySlice_at (pre mid suf : List Nat) (a b : Nat) (ha : a = pre.length)
    (hb2 : b = pre.length + mid.length) :
    pySlice (pre ++ mid ++ suf) (a : Int) (b : Int) = mid := by
  subst ha hb2
  exact pySlice_middle pre mid suf

theorem pyTail_at (pre rest : List Nat) (a : Nat) (ha : a = pre.length) :
    pyTail (pre ++ rest) (a : Int) = rest := by
  subst ha
  exact pyTail_append pre rest

theorem pyFind_at' (pre x suf : List Nat) (c : Nat) (a : Nat) (hx : c ∉ x)
    (ha : a = pre.length) :
    pyFind (pre ++ (x ++ c :: suf)) c (a : Int) = ((a + x.length : Nat) : Int) := by
  subst ha
  exact pyFind_at pre x suf c hx

theorem not_contains_not_mem {α : Type} [BEq α] [LawfulBEq α] {l : List α} {a : α}
    (h : (!l.contains a) = true) : a ∉ l := by
  intro hm
  have hc : l.contains a = true := by
    rw [List.contains_eq_any_beq]
    exact List.any_eq_true.mpr ⟨a, hm, by simp⟩
  rw [hc] at h
  cases h


theorem component_compBuf (fuel : Nat) (name : List Nat) (t : Nat) (rest : List Nat)
    (hn : (0 : Nat) ∉ name) (hv : validUtf8 name = true) (ht : t < 128) :
    component_from_buffer (fuel + 1) (name ++ [0] ++ [t] ++ rest) =
      componentPayload fuel (name ++ [0] ++ [t] ++ rest) name t
        (((name.length + 2 : Nat) : Int)) := by
  have hfind : pyFind (name ++ [0] ++ [t] ++ rest) 0 0 = (name.length : Int) := by
    have hb : name ++ [0] ++ [t] ++ rest = name ++ 0 :: ([t] ++ rest) := by simp
    rw [hb]
    exact pyFind_zero name _ 0 hn
  have hname : pySlice (name ++ [0] ++ [t] ++ rest) 0 (name.length : Int) = name := by
    have hb : name ++ [0] ++ [t] ++ rest = name ++ ([0] ++ [t] ++ rest) := by simp
    rw [hb]
    exact pySlice_prefix name _
  have htc : pySlice (name ++ [0] ++ [t] ++ rest) ((name.length : Int) + 1)
      ((name.length : Int) + 2) = [t] := by
    have hb : name ++ [0] ++ [t] ++ rest = (name ++ [0]) ++ [t] ++ rest := by simp
    have e1 : ((name.length : Int) + 1) = (((name.length + 1 : Nat)) : Int) := by push_cast; ring
    have e2 : ((name.length : Int) + 2) = (((name.length + 2 : Nat)) : Int) := by push_cast; ring
    rw [hb, e1, e2]
    exact pySlice_at (name ++ [0]) [t] rest _ _ (by simp) (by simp)
  have epos : (name.length : Int) + 2 = (((name.length + 2 : Nat)) : Int) := by push_cast; ring
  unfold component_from_buffer
  rw [hfind, hname, hv]
  simp only [Bool.not_true, Bool.false_eq_true, if_false, htc]
  show (if 128 ≤ t then PRes.exn
    else componentPayload fuel (name ++ [0] ++ [t] ++ rest) name t ((name.length : Int) + 2)) = _
  rw [if_neg (by omega), epos]

theorem sLoop_encode (xs : List (List Nat)) :
    ∀ pre ext : List Nat, (∀ x ∈ xs, (0 : Nat) ∉ x ∧ validUtf8 x = true) →
      sLoop (pre ++ ((xs.map (fun y => y ++ [0])).flatten ++ ext)) xs.length
          ((pre.length : Nat) : Int) =
        .ok (xs, ((pre.length + (xs.map (fun y => y ++ [0])).flatten.length : Nat) : Int)) := by
  induction xs with
  | nil =>
    intro pre ext h
    simp [sLoop]
  | cons x r ih =>
    intro pre ext h
    obtain ⟨hx0, hxv⟩ := h x (List.mem_cons_self x r)
    have hbuf : pre ++ (((x :: r).map (fun y => y ++ [0])).flatten ++ ext) =
        pre ++ (x ++ 0 :: ((r.map (fun y => y ++ [0])).flatten ++ ext)) := by
      simp
    rw [hbuf]
    show sLoop _ (r.length + 1) _ = _
    rw [sLoop, pyFind_at' pre x _ 0 pre.length hx0 rfl]
    have hsl : pySlice (pre ++ (x ++ 0 :: ((r.map (fun y => y ++ [0])).flatten ++ ext)))
        ((pre.length : Nat) : Int) ((pre.length + x.length : Nat) : Int) = x := by
      have hb2 : pre ++ (x ++ 0 :: ((r.map (fun y => y ++ [0])).flatten ++ ext)) =
          pre ++ x ++ (0 :: ((r.map (fun y => y ++ [0])).flatten ++ ext)) := by
        simp
      rw [hb2]
      exact pySlice_at pre x _ _ _ rfl rfl
    rw [hsl, hxv]
    have hlen : ((pre.length + x.length : Nat) : Int) + 1 =
        (((pre ++ x ++ [0]).length : Nat) : Int) := by
      simp
      ring
    have hbuf2 : pre ++ (x ++ 0 :: ((r.map (fun y => y ++ [0])).flatten ++ ext)) =
        (pre ++ x ++ [0]) ++ ((r.map (fun y => y ++ [0])).flatten ++ ext) := by
      simp
    rw [hlen, hbuf2, ih (pre ++ x ++ [0]) ext (fun y hy => h y (List.mem_cons_of_mem _ hy))]
    simp only [Bool.not_true, Bool.false_eq_true, if_false]
    show PRes.ok _ = PRes.ok _
    congr 2
    simp
    ring

mutual

def sizeObj : GObj → Nat
  | .mk _ comps => sizeComps comps + 1

def sizeComps : GCompList → Nat
  | .nil => 1
  | .cons (.mk _ v _) rest => sizeVal v + sizeComps rest + 1

def sizeVal : GVal → Nat
  | .obj o => sizeObj o + 1
  | .objArr os => sizeObjList os + 1
  | _ => 1

def sizeObjList : GObjList → Nat
  | .nil => 1
  | .cons o rest => sizeObj o + sizeObjList rest + 1

end

theorem sizeObj_pos (o : GObj) : 1 ≤ sizeObj o := by
  obtain ⟨n, c⟩ := o
  rw [sizeObj]
  omega

theorem sizeComps_pos (c : GCompList) : 1 ≤ sizeComps c := by
  cases c with
  | nil => exact le_refl 1
  | cons c r => obtain ⟨n, v, t⟩ := c; rw [sizeComps]; omega

theorem sizeVal_pos (v : GVal) : 1 ≤ sizeVal v := by
  cases v <;> simp [sizeVal]

theorem sizeObjList_pos (l : GObjList) : 1 ≤ sizeObjList l := by
  cases l with
  | nil => exact le_refl 1
  | cons o r => rw [sizeObjList]; omega

theorem GCompList.app_nil (a : GCompList) : GCompList.app a .nil = a := by
  induction a using clistInduction with
  | hnil => rfl
  | hcons c r ih => exact congrArg (GCompList.cons c) ih

theorem beq_nat_eq {a b : Nat} (h : (a == b) = true) : a = b := by
  simpa using h

set_option maxHeartbeats 8000000 in
theorem encdec (N : Nat) :
    (∀ o s, sizeObj o ≤ N → wfObj o = true → rfaObj o = true → serialize o = some s →
      ∃ F, ∀ ext, frombuffer F (s ++ ext) = .ok (o, s.length)) ∧
    (∀ cs body, sizeComps cs ≤ N → wfComps cs = true → rfaComps cs = true →
      distinctKeys (namesOf cs) = true → serializeComps cs = some body →
      ∃ F, ∀ acc, (∀ k ∈ namesOf cs, k ∉ namesOf acc) →
        frombufferLoop F body acc = .ok (GCompList.app acc cs)) ∧
    (∀ v name t s, sizeVal v ≤ N → wfVal t v = true → rfaVal v = true →
      (0 : Nat) ∉ name → validUtf8 name = true →
      serialize_component name v (some t) = some s →
      s ≠ [] ∧ ∃ F, ∀ ext, component_from_buffer F (s ++ ext) =
        .ok (name, v, t, (s.length : Int))) ∧
    (∀ os b, sizeObjList os ≤ N → wfObjList os = true → rfaObjList os = true →
      serializeObjList os = some b →
      ∃ F, ∀ pre ext, oLoop F (pre ++ (b ++ ext)) (GObjList.length os)
          ((pre.length : Nat) : Int) =
        .ok (os, ((pre.length + b.length : Nat) : Int))) := by
  induction N with
  | zero =>
    refine ⟨?_, ?_, ?_, ?_⟩
    · intro o s hsz
      exact absurd hsz (by have := sizeObj_pos o; omega)
    · intro cs body hsz
      exact absurd hsz (by have := sizeComps_pos cs; omega)
    · intro v name t s hsz
      exact absurd hsz (by have := sizeVal_pos v; omega)
    · intro os b hsz
      exact absurd hsz (by have := sizeObjList_pos os; omega)
  | succ N ih =>
    obtain ⟨ihO, ihC, ihV, ihL⟩ := ih
    refine ⟨?_, ?_, ?_, ?_⟩
    · -- serialize, then frombuffer
      intro o s hsz hwf hrfa hser
      obtain ⟨name, comps⟩ := o
      rw [serialize] at hser
      split at hser
      · exact absurd hser (by simp)
      · rename_i body hbody
        split at hser
        · exact absurd hser (by simp)
        · rename_i sz hsz4
          obtain rfl : name ++ [0] ++ sz ++ body = s := by simpa using hser
          have hlt : body.length < 4294967296 := by
            rw [packU32] at hsz4
            split at hsz4
            · rename_i h
              exact h
            · exact absurd hsz4 (by simp)
          have hszE : sz = leBytes4 body.length := by
            rw [packU32, if_pos hlt] at hsz4
            simpa using hsz4.symm
          subst hszE
          rw [wfObj, Bool.and_eq_true, Bool.and_eq_true, Bool.and_eq_true] at hwf
          obtain ⟨⟨⟨hn0, hnv⟩, hwc⟩, hdk⟩ := hwf
          rw [rfaObj, Bool.and_eq_true, Bool.and_eq_true] at hrfa
          obtain ⟨⟨hreg, hascii⟩, hrc⟩ := hrfa
          have hn0' : (0 : Nat) ∉ name := not_contains_not_mem hn0
          have hregP : name ∉ registryNames := of_decide_eq_true hreg
          have hasciiP : ∀ bb ∈ name, bb ≤ 127 := by
            intro bb hbb
            exact of_decide_eq_true (List.all_eq_true.mp hascii bb hbb)
          have hszc : sizeComps comps ≤ N := by
            have : sizeComps comps + 1 ≤ N + 1 := hsz
            omega
          obtain ⟨F1, hF1⟩ := ihC comps body hszc hwc hrc hdk hbody
          refine ⟨F1 + 1, fun ext => ?_⟩
          have hb : (name ++ [0] ++ leBytes4 body.length ++ body) ++ ext =
              objBuf name body ext := by
            simp [objBuf]
          rw [hb, frombuffer_objBuf F1 name body ext hn0' hnv hlt]
          have hnil : frombufferLoop F1 body .nil = .ok comps := by
            have h := hF1 .nil (by intro k hk; simp [namesOf])
            exact h
          rw [hnil]
          show PRes.ok _ = PRes.ok _
          rw [registryApply_generic name comps hregP, countCp_ascii name hasciiP]
          congr 2
          simp only [objBuf, List.length_append, List.length_cons, List.length_nil,
            leBytes4_length]
    · -- serializeComps, then frombufferLoop
      intro cs body hsz hwf hrfa hdk hser
      cases cs with
      | nil =>
        obtain rfl : body = [] := by simpa [serializeComps] using hser.symm
        refine ⟨1, fun acc hfresh => ?_⟩
        rw [GCompList.app_nil]
        exact frombufferLoop_nil 1 (le_refl 1) acc
      | cons c rest =>
        obtain ⟨n, v, t⟩ := c
        cases t with
        | none =>
          have hwf2 : ((!n.contains 0) && validUtf8 n && false && wfComps rest) = true := hwf
          simp at hwf2
        | some tc =>
        have hwf2 : ((!n.contains 0) && validUtf8 n && wfVal tc v && wfComps rest) = true := hwf
        rw [Bool.and_eq_true, Bool.and_eq_true, Bool.and_eq_true] at hwf2
        obtain ⟨⟨⟨hn0, hnv⟩, hwv⟩, hwrest⟩ := hwf2
        have hrfa2 : (rfaVal v && rfaComps rest) = true := hrfa
        rw [Bool.and_eq_true] at hrfa2
        obtain ⟨hrv, hrrest⟩ := hrfa2
        have hdk2 : ((!(namesOf rest).contains n) && distinctKeys (namesOf rest)) = true := hdk
        rw [Bool.and_eq_true] at hdk2
        obtain ⟨hnotin, hdkrest⟩ := hdk2
        have hser2 : (match serialize_component n v (some tc), serializeComps rest with
            | some a, some b => some (a ++ b)
            | _, _ => none) = some body := hser
        split at hser2
        · rename_i a b ha hb
          obtain rfl : a ++ b = body := by simpa using hser2
          have hsz2 : sizeVal v + sizeComps rest + 1 ≤ N + 1 := hsz
          obtain ⟨hane, F1, hF1⟩ := ihV v n tc a (by omega) hwv hrv
            (not_contains_not_mem hn0) hnv ha
          obtain ⟨F2, hF2⟩ := ihC rest b (by omega) hwrest hrrest hdkrest hb
          refine ⟨F1 + F2 + 1, fun acc hfresh => ?_⟩
          obtain ⟨hd, tl, hcons⟩ : ∃ hd tl, a ++ b = hd :: tl := by
            rcases hab : a ++ b with _ | ⟨hd, tl⟩
            · rcases a with _ | _
              · exact absurd rfl hane
              · simp at hab
            · exact ⟨hd, tl, rfl⟩
          rw [hcons]
          unfold frombufferLoop
          rw [← hcons]
          have hcomp := component_mono_le (show F1 ≤ F1 + F2 by omega) (hF1 b)
          simp only [hcomp, pyTail_append]
          have hfr : n ∉ namesOf acc := hfresh n (by
            show n ∈ (GComp.mk n v (some tc)).name :: namesOf rest
            exact List.mem_cons_self _ _)
          rw [odUpd_fresh n v tc acc hfr]
          have hfresh2 : ∀ k ∈ namesOf rest,
              k ∉ namesOf (GCompList.app acc (.cons (.mk n v (some tc)) .nil)) := by
            intro k hk
            rw [namesOf_app]
            intro hmem
            rcases List.mem_append.mp hmem with hm1 | hm2
            · exact hfresh k (by
                show k ∈ (GComp.mk n v (some tc)).name :: namesOf rest
                exact List.mem_cons_of_mem _ hk) hm1
            · have hkn : k = n := by
                have : k ∈ namesOf (GCompList.cons (GComp.mk n v (some tc)) GCompList.nil) := hm2
                simpa [namesOf, GComp.name] using this
              have hnn : n ∉ namesOf rest := not_contains_not_mem hnotin
              exact hnn (hkn ▸ hk)
          have hloop := frombufferLoop_mono_le (show F2 ≤ F1 + F2 by omega)
            (hF2 (GCompList.app acc (.cons (.mk n v (some tc)) .nil)) hfresh2)
          rw [hloop, GCompList.app_assoc_cons]
        · exact absurd hser2 (by simp)
    · -- serialize_component, then component_from_buffer
      intro v name t s hsz hwf hrfa hn0 hnv hser
      cases v with
      | obj o =>
        have h2 : ((t == 111) && wfObj o) = true := hwf
        rw [Bool.and_eq_true] at h2
        obtain ⟨ht1, hwo⟩ := h2
        have ht := beq_nat_eq ht1
        subst ht
        have h3 : (match serialize o with
          | none => none
          | some payload => some (name ++ [0] ++ [111] ++ payload)) = some s := hser
        split at h3
        · exact Option.noConfusion h3
        · rename_i payload hso
          obtain rfl : name ++ [0] ++ [111] ++ payload = s := by simpa using h3
          have hro : rfaObj o = true := hrfa
          have hszo : sizeObj o ≤ N := by
            have hh : sizeObj o + 1 ≤ N + 1 := hsz
            omega
          obtain ⟨F1, hF1⟩ := ihO o payload hszo hwo hro hso
          refine ⟨by simp, F1 + 2, fun ext => ?_⟩
          have hb2 : (name ++ [0] ++ [111] ++ payload) ++ ext =
              name ++ [0] ++ [111] ++ (payload ++ ext) := by simp
          rw [hb2, component_compBuf (F1 + 1) name 111 _ hn0 hnv (by omega)]
          unfold componentPayload
          rw [if_pos rfl]
          have htail : pyTail (name ++ [0] ++ [111] ++ (payload ++ ext))
              (((name.length + 2 : Nat)) : Int) = payload ++ ext := by
            have hb3 : name ++ [0] ++ [111] ++ (payload ++ ext) =
                (name ++ [0] ++ [111]) ++ (payload ++ ext) := by simp
            rw [hb3]
            exact pyTail_at (name ++ [0] ++ [111]) _ _ (by simp)
          rw [htail, hF1 ext]
          show PRes.ok (name, GVal.obj o, 111,
            (((name.length + 2 : Nat)) : Int) + ((payload.length : Nat) : Int)) = _
          have e1 : (((name.length + 2 : Nat)) : Int) + ((payload.length : Nat) : Int) =
              (((name ++ [0] ++ [111] ++ payload).length : Nat) : Int) := by
            simp
            ring
          rw [e1]
      | str sdata =>
        by_cases h115 : t = 115
        · subst h115
          have h2 : ((!sdata.contains 0) && validUtf8 sdata) = true := hwf
          rw [Bool.and_eq_true] at h2
          obtain ⟨hs0, hsv⟩ := h2
          obtain rfl : name ++ [0] ++ [115] ++ (sdata ++ [0]) = s := by
            have h3 : (some (name ++ [0] ++ [115] ++ (sdata ++ [0])) : Option (List Nat)) =
                some s := hser
            simpa using h3
          refine ⟨by simp, 2, fun ext => ?_⟩
          have hb2 : (name ++ [0] ++ [115] ++ (sdata ++ [0])) ++ ext =
              name ++ [0] ++ [115] ++ (sdata ++ 0 :: ext) := by simp
          rw [hb2, component_compBuf 1 name 115 _ hn0 hnv (by omega)]
          unfold componentPayload
          rw [if_neg (by decide), if_pos rfl]
          have hfind : pyFind (name ++ [0] ++ [115] ++ (sdata ++ 0 :: ext)) 0
              (((name.length + 2 : Nat)) : Int) =
              (((name.length + 2 + sdata.length : Nat)) : Int) := by
            have hb3 : name ++ [0] ++ [115] ++ (sdata ++ 0 :: ext) =
                (name ++ [0] ++ [115]) ++ (sdata ++ 0 :: ext) := by simp
            rw [hb3]
            exact pyFind_at' (name ++ [0] ++ [115]) sdata ext 0 _
              (not_contains_not_mem hs0) (by simp)
          rw [hfind]
          have hsl : pySlice (name ++ [0] ++ [115] ++ (sdata ++ 0 :: ext))
              (((name.length + 2 : Nat)) : Int)
              (((name.length + 2 + sdata.length : Nat)) : Int) = sdata := by
            have hb3 : name ++ [0] ++ [115] ++ (sdata ++ 0 :: ext) =
                (name ++ [0] ++ [115]) ++ sdata ++ (0 :: ext) := by simp
            rw [hb3]
            exact pySlice_at (name ++ [0] ++ [115]) sdata (0 :: ext) _ _ (by simp) (by simp)
          rw [hsl, hsv]
          simp only [Bool.not_true, Bool.false_eq_true, if_false]
          have e1 : (((name.length + 2 + sdata.length : Nat)) : Int) + 1 =
              (((name.length + 3 + sdata.length : Nat)) : Int) := by
            push_cast
            ring
          have hl2 : (name ++ [0] ++ [115] ++ (sdata ++ [0])).length =
              name.length + 3 + sdata.length := by
            simp
            omega
          rw [e1, hl2]
        · by_cases h99 : t = 99
          · subst h99
            cases sdata with
            | nil => exact Bool.noConfusion (show false = true from hwf)
            | cons x rest2 =>
              cases rest2 with
              | cons y rest3 => exact Bool.noConfusion (show false = true from hwf)
              | nil =>
                have hx : x ≤ 127 :=
                  of_decide_eq_true (show decide (x ≤ 127) = true from hwf)
                obtain rfl : name ++ [0] ++ [99] ++ [x] = s := by
                  have h3 : (some (name ++ [0] ++ [99] ++ [x]) : Option (List Nat)) =
                      some s := hser
                  simpa using h3
                refine ⟨by simp, 2, fun ext => ?_⟩
                have hb2 : (name ++ [0] ++ [99] ++ [x]) ++ ext =
                    name ++ [0] ++ [99] ++ ([x] ++ ext) := by simp
                rw [hb2, component_compBuf 1 name 99 _ hn0 hnv (by omega)]
                unfold componentPayload
                rw [if_neg (by decide), if_neg (by decide), if_neg (by decide), if_pos rfl]
                have e1 : (((name.length + 2 : Nat)) : Int) + 1 =
                    (((name.length + 3 : Nat)) : Int) := by
                  push_cast
                  ring
                have hb3 : name ++ [0] ++ [99] ++ ([x] ++ ext) =
                    (name ++ [0] ++ [99]) ++ [x] ++ ext := by simp
                rw [e1, hb3, pySlice_at (name ++ [0] ++ [99]) [x] ext _ _ (by simp) (by simp)]
                show (if 128 ≤ x then PRes.exn
                  else PRes.ok (name, GVal.str [x], 99, (((name.length + 3 : Nat)) : Int))) = _
                rw [if_neg (by omega)]
                have hl2 : (name ++ [0] ++ [99] ++ [x]).length = name.length + 3 := by simp
                rw [hl2]
          · exfalso
            have hfalse : ∀ (A B : Bool),
                (if t = 115 then A else if t = 99 then B else false) = true → False := by
              intro A B h2
              rw [if_neg h115, if_neg h99] at h2
              exact Bool.noConfusion h2
            cases sdata with
            | nil => exact hfalse _ _ hwf
            | cons x r2 =>
              cases r2 with
              | nil => exact hfalse _ _ hwf
              | cons y r3 => exact hfalse _ _ hwf
      | boolean bb =>
        have ht : t = 98 := beq_nat_eq (show (t == 98) = true from hwf)
        subst ht
        cases bb with
        | false =>
          obtain rfl : name ++ [0] ++ [98] ++ [0] = s := by
            have h2 : (some (name ++ [0] ++ [98] ++ [0]) : Option (List Nat)) = some s := hser
            simpa using h2
          refine ⟨by simp, 2, fun ext => ?_⟩
          have hb2 : (name ++ [0] ++ [98] ++ [0]) ++ ext =
              name ++ [0] ++ [98] ++ ([0] ++ ext) := by simp
          rw [hb2, component_compBuf 1 name 98 _ hn0 hnv (by omega)]
          unfold componentPayload
          rw [if_neg (by decide), if_neg (by decide), if_pos rfl]
          have e1 : (((name.length + 2 : Nat)) : Int) + 1 = (((name.length + 3 : Nat)) : Int) := by
            push_cast
            ring
          have hb3 : name ++ [0] ++ [98] ++ ([0] ++ ext) =
              (name ++ [0] ++ [98]) ++ [0] ++ ext := by simp
          rw [e1, hb3, pySlice_at (name ++ [0] ++ [98]) [0] ext _ _ (by simp) (by simp)]
          have hl2 : (name ++ [0] ++ [98] ++ [0]).length = name.length + 3 := by simp
          rw [hl2]
          rfl
        | true =>
          obtain rfl : name ++ [0] ++ [98] ++ [1] = s := by
            have h2 : (some (name ++ [0] ++ [98] ++ [1]) : Option (List Nat)) = some s := hser
            simpa using h2
          refine ⟨by simp, 2, fun ext => ?_⟩
          have hb2 : (name ++ [0] ++ [98] ++ [1]) ++ ext =
              name ++ [0] ++ [98] ++ ([1] ++ ext) := by simp
          rw [hb2, component_compBuf 1 name 98 _ hn0 hnv (by omega)]
          unfold componentPayload
          rw [if_neg (by decide), if_neg (by decide), if_pos rfl]
          have e1 : (((name.length + 2 : Nat)) : Int) + 1 = (((name.length + 3 : Nat)) : Int) := by
            push_cast
            ring
          have hb3 : name ++ [0] ++ [98] ++ ([1] ++ ext) =
              (name ++ [0] ++ [98]) ++ [1] ++ ext := by simp
          rw [e1, hb3, pySlice_at (name ++ [0] ++ [98]) [1] ext _ _ (by simp) (by simp)]
          have hl2 : (name ++ [0] ++ [98] ++ [1]).length = name.length + 3 := by simp
          rw [hl2]
          rfl
      | int i =>
        by_cases h105 : t = 105
        · subst h105
          have hr : -2147483648 ≤ i ∧ i < 2147483648 :=
            of_decide_eq_true
              (show decide (-2147483648 ≤ i ∧ i < 2147483648) = true from hwf)
          have h3 : (match packI32 i with
            | none => none
            | some payload => some (name ++ [0] ++ [105] ++ payload)) = some s := hser
          split at h3
          · exact Option.noConfusion h3
          · rename_i payload hpk
            obtain rfl : name ++ [0] ++ [105] ++ payload = s := by simpa using h3
            have hpl : payload.length = 4 := by
              rw [packI32, if_pos hr] at hpk
              obtain rfl : leBytes4 (i.emod 4294967296).toNat = payload := by simpa using hpk
              exact leBytes4_length _
            have hup : unpackI32 payload = some i := unpackI32_packI32 hpk
            refine ⟨by simp, 2, fun ext => ?_⟩
            have hb2 : (name ++ [0] ++ [105] ++ payload) ++ ext =
                name ++ [0] ++ [105] ++ (payload ++ ext) := by simp
            rw [hb2, component_compBuf 1 name 105 _ hn0 hnv (by omega)]
            unfold componentPayload
            rw [if_neg (by decide), if_neg (by decide), if_neg (by decide), if_neg (by decide),
              if_pos rfl]
            have e1 : (((name.length + 2 : Nat)) : Int) + 4 =
                (((name.length + 6 : Nat)) : Int) := by
              push_cast
              ring
            have hb3 : name ++ [0] ++ [105] ++ (payload ++ ext) =
                (name ++ [0] ++ [105]) ++ payload ++ ext := by simp
            rw [e1, hb3,
              pySlice_at (name ++ [0] ++ [105]) payload ext _ _ (by simp) (by simp; omega),
              hup]
            show PRes.ok (name, GVal.int i, 105, (((name.length + 6 : Nat)) : Int)) = _
            have hl3 : (name ++ [0] ++ [105] ++ payload).length = name.length + 6 := by
              simp
              omega
            rw [hl3]
        · by_cases h113 : t = 113
          · subst h113
            have hr : -9223372036854775808 ≤ i ∧ i < 9223372036854775808 :=
              of_decide_eq_true
                (show decide (-9223372036854775808 ≤ i ∧ i < 9223372036854775808) = true
                  from hwf)
            have h3 : (match packI64 i with
              | none => none
              | some payload => some (name ++ [0] ++ [113] ++ payload)) = some s := hser
            split at h3
            · exact Option.noConfusion h3
            · rename_i payload hpk
              obtain rfl : name ++ [0] ++ [113] ++ payload = s := by simpa using h3
              have hpl : payload.length = 8 := by
                rw [packI64, if_pos hr] at hpk
                obtain rfl : leBytes8 (i.emod 18446744073709551616).toNat = payload := by
                  simpa using hpk
                exact leBytes8_length _
              have hup : unpackI64 payload = some i := unpackI64_packI64 hpk
              refine ⟨by simp, 2, fun ext => ?_⟩
              have hb2 : (name ++ [0] ++ [113] ++ payload) ++ ext =
                  name ++ [0] ++ [113] ++ (payload ++ ext) := by simp
              rw [hb2, component_compBuf 1 name 113 _ hn0 hnv (by omega)]
              unfold componentPayload
              rw [if_neg (by decide), if_neg (by decide), if_neg (by decide), if_neg (by decide),
                if_neg (by decide), if_pos rfl]
              have e1 : (((name.length + 2 : Nat)) : Int) + 8 =
                  (((name.length + 10 : Nat)) : Int) := by
                push_cast
                ring
              have hb3 : name ++ [0] ++ [113] ++ (payload ++ ext) =
                  (name ++ [0] ++ [113]) ++ payload ++ ext := by simp
              rw [e1, hb3,
                pySlice_at (name ++ [0] ++ [113]) payload ext _ _ (by simp) (by simp; omega),
                hup]
              show PRes.ok (name, GVal.int i, 113, (((name.length + 10 : Nat)) : Int)) = _
              have hl3 : (name ++ [0] ++ [113] ++ payload).length = name.length + 10 := by
                simp
                omega
              rw [hl3]
          · exfalso
            have hfalse : ∀ (A B : Bool),
                (if t = 105 then A else if t = 113 then B else false) = true → False := by
              intro A B h2
              rw [if_neg h105, if_neg h113] at h2
              exact Bool.noConfusion h2
            exact hfalse _ _ hwf
      | double sd =>
        have h2 : ((t == 100) && (sd.length == 8)) = true := hwf
        rw [Bool.and_eq_true] at h2
        obtain ⟨ht1, hl8⟩ := h2
        have ht := beq_nat_eq ht1
        subst ht
        have hlen : sd.length = 8 := beq_nat_eq hl8
        obtain rfl : name ++ [0] ++ [100] ++ sd = s := by
          have h3 : (match (if sd.length = 8 then some sd else none) with
            | none => none
            | some payload => some (name ++ [0] ++ [100] ++ payload)) = some s := hser
          rw [if_pos hlen] at h3
          simpa using h3
        refine ⟨by simp, 2, fun ext => ?_⟩
        have hb2 : (name ++ [0] ++ [100] ++ sd) ++ ext =
            name ++ [0] ++ [100] ++ (sd ++ ext) := by simp
        rw [hb2, component_compBuf 1 name 100 _ hn0 hnv (by omega)]
        unfold componentPayload
        rw [if_neg (by decide), if_neg (by decide), if_neg (by decide), if_neg (by decide),
          if_neg (by decide), if_neg (by decide), if_pos rfl]
        have e1 : (((name.length + 2 : Nat)) : Int) + 8 = (((name.length + 10 : Nat)) : Int) := by
          push_cast
          ring
        have hb3 : name ++ [0] ++ [100] ++ (sd ++ ext) =
            (name ++ [0] ++ [100]) ++ sd ++ ext := by simp
        rw [e1, hb3, pySlice_at (name ++ [0] ++ [100]) sd ext _ _ (by simp) (by simp; omega)]
        rw [if_pos hlen]
        have hl2 : (name ++ [0] ++ [100] ++ sd).length = name.length + 10 := by simp; omega
        rw [hl2]
      | arrC xs =>
        exact Bool.noConfusion (show false = true from hwf)
      | arrI xs =>
        have h2 : ((t == 73) &&
            xs.all (fun i => decide (-2147483648 ≤ i ∧ i < 2147483648))) = true := hwf
        rw [Bool.and_eq_true] at h2
        obtain ⟨ht1, hall⟩ := h2
        have ht := beq_nat_eq ht1
        subst ht
        have h3 : (match (match packU32 xs.length with
            | some c => some (c ++ (xs.map truncI32).flatten)
            | none => none) with
          | none => none
          | some payload => some (name ++ [0] ++ [73] ++ payload)) = some s := hser
        split at h3
        · exact Option.noConfusion h3
        · rename_i payload hpm
          obtain rfl : name ++ [0] ++ [73] ++ payload = s := by simpa using h3
          split at hpm
          · rename_i c hc
            obtain rfl : c ++ (xs.map truncI32).flatten = payload := by simpa using hpm
            have hxl : xs.length < 4294967296 := by
              rw [packU32] at hc
              split at hc
              · rename_i hlt
                exact hlt
              · exact Option.noConfusion hc
            have hcE : c = leBytes4 xs.length := by
              rw [packU32, if_pos hxl] at hc
              simpa using hc.symm
            subst hcE
            have hchunks : ∀ cc ∈ xs.map truncI32, cc.length = 4 := by
              intro cc hcc
              obtain ⟨ii, hii, rfl⟩ := List.mem_map.mp hcc
              exact truncI32_length ii
            have hflat : (xs.map truncI32).flatten.length = 4 * xs.length := by
              rw [flatten_length_const _ hchunks, List.length_map]
            refine ⟨by simp, 2, fun ext => ?_⟩
            have hb2 : (name ++ [0] ++ [73] ++ (leBytes4 xs.length ++
                (xs.map truncI32).flatten)) ++ ext =
                name ++ [0] ++ [73] ++ (leBytes4 xs.length ++
                  ((xs.map truncI32).flatten ++ ext)) := by simp
            rw [hb2, component_compBuf 1 name 73 _ hn0 hnv (by omega)]
            unfold componentPayload
            rw [if_neg (by decide), if_neg (by decide), if_neg (by decide), if_neg (by decide),
              if_neg (by decide), if_neg (by decide), if_neg (by decide), if_neg (by decide),
              if_pos rfl]
            have e1 : (((name.length + 2 : Nat)) : Int) + 4 =
                (((name.length + 6 : Nat)) : Int) := by
              push_cast
              ring
            have hsl1 : pySlice (name ++ [0] ++ [73] ++ (leBytes4 xs.length ++
                ((xs.map truncI32).flatten ++ ext)))
                (((name.length + 2 : Nat)) : Int) (((name.length + 6 : Nat)) : Int) =
                leBytes4 xs.length := by
              have hb3 : name ++ [0] ++ [73] ++ (leBytes4 xs.length ++
                  ((xs.map truncI32).flatten ++ ext)) =
                  (name ++ [0] ++ [73]) ++ leBytes4 xs.length ++
                    ((xs.map truncI32).flatten ++ ext) := by simp
              rw [hb3]
              exact pySlice_at _ _ _ _ _ (by simp) (by simp [leBytes4_length])
            rw [e1, hsl1, unpackU32_leBytes4 _ hxl]
            show (if (pySlice (name ++ [0] ++ [73] ++ (leBytes4 xs.length ++
                  ((xs.map truncI32).flatten ++ ext)))
                  (((name.length + 6 : Nat)) : Int)
                  ((((name.length + 6 : Nat)) : Int) + 4 * ((xs.length : Nat) : Int))).length
                  % 4 = 0 then
                PRes.ok (name, GVal.arrI ((takeChunks 4
                  ((pySlice (name ++ [0] ++ [73] ++ (leBytes4 xs.length ++
                    ((xs.map truncI32).flatten ++ ext)))
                    (((name.length + 6 : Nat)) : Int)
                    ((((name.length + 6 : Nat)) : Int) +
                      4 * ((xs.length : Nat) : Int))).length / 4)
                  (pySlice (name ++ [0] ++ [73] ++ (leBytes4 xs.length ++
                    ((xs.map truncI32).flatten ++ ext)))
                    (((name.length + 6 : Nat)) : Int)
                    ((((name.length + 6 : Nat)) : Int) +
                      4 * ((xs.length : Nat) : Int)))).map i32ofChunk),
                  73, (((name.length + 6 : Nat)) : Int) + 4 * ((xs.length : Nat) : Int))
              else PRes.exn) = _
            have e2 : (((name.length + 6 : Nat)) : Int) + 4 * ((xs.length : Nat) : Int) =
                (((name.length + 6 + 4 * xs.length : Nat)) : Int) := by
              push_cast
              ring
            have hsl2 : pySlice (name ++ [0] ++ [73] ++ (leBytes4 xs.length ++
                ((xs.map truncI32).flatten ++ ext)))
                (((name.length + 6 : Nat)) : Int)
                (((name.length + 6 + 4 * xs.length : Nat)) : Int) =
                (xs.map truncI32).flatten := by
              have hb3 : name ++ [0] ++ [73] ++ (leBytes4 xs.length ++
                  ((xs.map truncI32).flatten ++ ext)) =
                  (name ++ [0] ++ [73] ++ leBytes4 xs.length) ++
                    (xs.map truncI32).flatten ++ ext := by simp
              rw [hb3]
              exact pySlice_at _ _ _ _ _ (by simp [leBytes4_length])
                (by simp only [List.length_append, List.length_cons, List.length_nil,
                  leBytes4_length]; omega)
            rw [e2, hsl2, hflat]
            have hdiv : 4 * xs.length / 4 = xs.length := by omega
            rw [if_pos (by omega : 4 * xs.length % 4 = 0), hdiv]
            have htk : takeChunks 4 xs.length (xs.map truncI32).flatten =
                xs.map truncI32 := by
              have h4 := takeChunks_flatten (xs.map truncI32) hchunks
              rwa [List.length_map] at h4
            rw [htk]
            have hmap : (xs.map truncI32).map i32ofChunk = xs := by
              rw [List.map_map]
              have hcg : ∀ i ∈ xs, (i32ofChunk ∘ truncI32) i = id i := by
                intro i hi
                have hri := of_decide_eq_true (List.all_eq_true.mp hall i hi)
                exact i32ofChunk_truncI32 hri.1 hri.2
              rw [List.map_congr_left hcg, List.map_id]
            rw [hmap]
            have hl3 : (name ++ [0] ++ [73] ++ (leBytes4 xs.length ++
                (xs.map truncI32).flatten)).length = name.length + 6 + 4 * xs.length := by
              simp only [List.length_append, List.length_cons, List.length_nil,
                leBytes4_length]
              omega
            rw [hl3]
          · exact Option.noConfusion hpm
      | arrQ xs =>
        have h2 : ((t == 81) && xs.all (fun i =>
            decide (-9223372036854775808 ≤ i ∧ i < 9223372036854775808))) = true := hwf
        rw [Bool.and_eq_true] at h2
        obtain ⟨ht1, hall⟩ := h2
        have ht := beq_nat_eq ht1
        subst ht
        have h3 : (match (match packU32 xs.length with
            | some c => some (c ++ (xs.map truncI64).flatten)
            | none => none) with
          | none => none
          | some payload => some (name ++ [0] ++ [81] ++ payload)) = some s := hser
        split at h3
        · exact Option.noConfusion h3
        · rename_i payload hpm
          obtain rfl : name ++ [0] ++ [81] ++ payload = s := by simpa using h3
          split at hpm
          · rename_i c hc
            obtain rfl : c ++ (xs.map truncI64).flatten = payload := by simpa using hpm
            have hxl : xs.length < 4294967296 := by
              rw [packU32] at hc
              split at hc
              · rename_i hlt
                exact hlt
              · exact Option.noConfusion hc
            have hcE : c = leBytes4 xs.length := by
              rw [packU32, if_pos hxl] at hc
              simpa using hc.symm
            subst hcE
            have hchunks : ∀ cc ∈ xs.map truncI64, cc.length = 8 := by
              intro cc hcc
              obtain ⟨ii, hii, rfl⟩ := List.mem_map.mp hcc
              exact truncI64_length ii
            have hflat : (xs.map truncI64).flatten.length = 8 * xs.length := by
              rw [flatten_length_const _ hchunks, List.length_map]
            refine ⟨by simp, 2, fun ext => ?_⟩
            have hb2 : (name ++ [0] ++ [81] ++ (leBytes4 xs.length ++
                (xs.map truncI64).flatten)) ++ ext =
                name ++ [0] ++ [81] ++ (leBytes4 xs.length ++
                  ((xs.map truncI64).flatten ++ ext)) := by simp
            rw [hb2, component_compBuf 1 name 81 _ hn0 hnv (by omega)]
            unfold componentPayload
            rw [if_neg (by decide), if_neg (by decide), if_neg (by decide), if_neg (by decide),
              if_neg (by decide), if_neg (by decide), if_neg (by decide), if_neg (by decide),
              if_neg (by decide), if_pos rfl]
            have e1 : (((name.length + 2 : Nat)) : Int) + 4 =
                (((name.length + 6 : Nat)) : Int) := by
              push_cast
              ring
            have hsl1 : pySlice (name ++ [0] ++ [81] ++ (leBytes4 xs.length ++
                ((xs.map truncI64).flatten ++ ext)))
                (((name.length + 2 : Nat)) : Int) (((name.length + 6 : Nat)) : Int) =
                leBytes4 xs.length := by
              have hb3 : name ++ [0] ++ [81] ++ (leBytes4 xs.length ++
                  ((xs.map truncI64).flatten ++ ext)) =
                  (name ++ [0] ++ [81]) ++ leBytes4 xs.length ++
                    ((xs.map truncI64).flatten ++ ext) := by simp
              rw [hb3]
              exact pySlice_at _ _ _ _ _ (by simp) (by simp [leBytes4_length])
            rw [e1, hsl1, unpackU32_leBytes4 _ hxl]
            show (if (pySlice (name ++ [0] ++ [81] ++ (leBytes4 xs.length ++
                  ((xs.map truncI64).flatten ++ ext)))
                  (((name.length + 6 : Nat)) : Int)
                  ((((name.length + 6 : Nat)) : Int) + 8 * ((xs.length : Nat) : Int))).length
                  % 8 = 0 then
                PRes.ok (name, GVal.arrQ ((takeChunks 8
                  ((pySlice (name ++ [0] ++ [81] ++ (leBytes4 xs.length ++
                    ((xs.map truncI64).flatten ++ ext)))
                    (((name.length + 6 : Nat)) : Int)
                    ((((name.length + 6 : Nat)) : Int) +
                      8 * ((xs.length : Nat) : Int))).length / 8)
                  (pySlice (name ++ [0] ++ [81] ++ (leBytes4 xs.length ++
                    ((xs.map truncI64).flatten ++ ext)))
                    (((name.length + 6 : Nat)) : Int)
                    ((((name.length + 6 : Nat)) : Int) +
                      8 * ((xs.length : Nat) : Int)))).map i64ofChunk),
                  81, (((name.length + 6 : Nat)) : Int) + 8 * ((xs.length : Nat) : Int))
              else PRes.exn) = _
            have e2 : (((name.length + 6 : Nat)) : Int) + 8 * ((xs.length : Nat) : Int) =
                (((name.length + 6 + 8 * xs.length : Nat)) : Int) := by
              push_cast
              ring
            have hsl2 : pySlice (name ++ [0] ++ [81] ++ (leBytes4 xs.length ++
                ((xs.map truncI64).flatten ++ ext)))
                (((name.length + 6 : Nat)) : Int)
                (((name.length + 6 + 8 * xs.length : Nat)) : Int) =
                (xs.map truncI64).flatten := by
              have hb3 : name ++ [0] ++ [81] ++ (leBytes4 xs.length ++
                  ((xs.map truncI64).flatten ++ ext)) =
                  (name ++ [0] ++ [81] ++ leBytes4 xs.length) ++
                    (xs.map truncI64).flatten ++ ext := by simp
              rw [hb3]
              exact pySlice_at _ _ _ _ _ (by simp [leBytes4_length])
                (by simp only [List.length_append, List.length_cons, List.length_nil,
                  leBytes4_length]; omega)
            rw [e2, hsl2, hflat]
            have hdiv : 8 * xs.length / 8 = xs.length := by omega
            rw [if_pos (by omega : 8 * xs.length % 8 = 0), hdiv]
            have htk : takeChunks 8 xs.length (xs.map truncI64).flatten =
                xs.map truncI64 := by
              have h4 := takeChunks_flatten (xs.map truncI64) hchunks
              rwa [List.length_map] at h4
            rw [htk]
            have hmap : (xs.map truncI64).map i64ofChunk = xs := by
              rw [List.map_map]
              have hcg : ∀ i ∈ xs, (i64ofChunk ∘ truncI64) i = id i := by
                intro i hi
                have hri := of_decide_eq_true (List.all_eq_true.mp hall i hi)
                exact i64ofChunk_truncI64 hri.1 hri.2
              rw [List.map_congr_left hcg, List.map_id]
            rw [hmap]
            have hl3 : (name ++ [0] ++ [81] ++ (leBytes4 xs.length ++
                (xs.map truncI64).flatten)).length = name.length + 6 + 8 * xs.length := by
              simp only [List.length_append, List.length_cons, List.length_nil,
                leBytes4_length]
              omega
            rw [hl3]
          · exact Option.noConfusion hpm
      | arrD xs =>
        have h2 : ((t == 68) && xs.all (fun x => x.length == 8)) = true := hwf
        rw [Bool.and_eq_true] at h2
        obtain ⟨ht1, hall⟩ := h2
        have ht := beq_nat_eq ht1
        subst ht
        have hallP : ∀ x ∈ xs, x.length = 8 := by
          intro x hx
          exact beq_nat_eq (List.all_eq_true.mp hall x hx)
        have hguard : xs.all (fun x => decide (x.length = 8)) = true := by
          rw [List.all_eq_true]
          intro x hx
          exact decide_eq_true (hallP x hx)
        have h3 : (match (if xs.all (fun x => decide (x.length = 8)) then
            (match packU32 xs.length with
            | some c => some (c ++ xs.flatten)
            | none => none) else none) with
          | none => none
          | some payload => some (name ++ [0] ++ [68] ++ payload)) = some s := hser
        rw [if_pos hguard] at h3
        split at h3
        · exact Option.noConfusion h3
        · rename_i payload hpm
          obtain rfl : name ++ [0] ++ [68] ++ payload = s := by simpa using h3
          split at hpm
          · rename_i c hc
            obtain rfl : c ++ xs.flatten = payload := by simpa using hpm
            have hxl : xs.length < 4294967296 := by
              rw [packU32] at hc
              split at hc
              · rename_i hlt
                exact hlt
              · exact Option.noConfusion hc
            have hcE : c = leBytes4 xs.length := by
              rw [packU32, if_pos hxl] at hc
              simpa using hc.symm
            subst hcE
            have hflat : xs.flatten.length = 8 * xs.length :=
              flatten_length_const _ hallP
            refine ⟨by simp, 2, fun ext => ?_⟩
            have hb2 : (name ++ [0] ++ [68] ++ (leBytes4 xs.length ++ xs.flatten)) ++ ext =
                name ++ [0] ++ [68] ++ (leBytes4 xs.length ++ (xs.flatten ++ ext)) := by
              simp
            rw [hb2, component_compBuf 1 name 68 _ hn0 hnv (by omega)]
            unfold componentPayload
            rw [if_neg (by decide), if_neg (by decide), if_neg (by decide), if_neg (by decide),
              if_neg (by decide), if_neg (by decide), if_neg (by decide), if_neg (by decide),
              if_neg (by decide), if_neg (by decide), if_pos rfl]
            have e1 : (((name.length + 2 : Nat)) : Int) + 4 =
                (((name.length + 6 : Nat)) : Int) := by
              push_cast
              ring
            have hsl1 : pySlice (name ++ [0] ++ [68] ++ (leBytes4 xs.length ++
                (xs.flatten ++ ext)))
                (((name.length + 2 : Nat)) : Int) (((name.length + 6 : Nat)) : Int) =
                leBytes4 xs.length := by
              have hb3 : name ++ [0] ++ [68] ++ (leBytes4 xs.length ++
                  (xs.flatten ++ ext)) =
                  (name ++ [0] ++ [68]) ++ leBytes4 xs.length ++ (xs.flatten ++ ext) := by
                simp
              rw [hb3]
              exact pySlice_at _ _ _ _ _ (by simp) (by simp [leBytes4_length])
            rw [e1, hsl1, unpackU32_leBytes4 _ hxl]
            show (if (pySlice (name ++ [0] ++ [68] ++ (leBytes4 xs.length ++
                  (xs.flatten ++ ext)))
                  (((name.length + 6 : Nat)) : Int)
                  ((((name.length + 6 : Nat)) : Int) + 8 * ((xs.length : Nat) : Int))).length
                  % 8 = 0 then
                PRes.ok (name, GVal.arrD (takeChunks 8
                  ((pySlice (name ++ [0] ++ [68] ++ (leBytes4 xs.length ++
                    (xs.flatten ++ ext)))
                    (((name.length + 6 : Nat)) : Int)
                    ((((name.length + 6 : Nat)) : Int) +
                      8 * ((xs.length : Nat) : Int))).length / 8)
                  (pySlice (name ++ [0] ++ [68] ++ (leBytes4 xs.length ++
                    (xs.flatten ++ ext)))
                    (((name.length + 6 : Nat)) : Int)
                    ((((name.length + 6 : Nat)) : Int) +
                      8 * ((xs.length : Nat) : Int)))),
                  68, (((name.length + 6 : Nat)) : Int) + 8 * ((xs.length : Nat) : Int))
              else PRes.exn) = _
            have e2 : (((name.length + 6 : Nat)) : Int) + 8 * ((xs.length : Nat) : Int) =
                (((name.length + 6 + 8 * xs.length : Nat)) : Int) := by
              push_cast
              ring
            have hsl2 : pySlice (name ++ [0] ++ [68] ++ (leBytes4 xs.length ++
                (xs.flatten ++ ext)))
                (((name.length + 6 : Nat)) : Int)
                (((name.length + 6 + 8 * xs.length : Nat)) : Int) = xs.flatten := by
              have hb3 : name ++ [0] ++ [68] ++ (leBytes4 xs.length ++
                  (xs.flatten ++ ext)) =
                  (name ++ [0] ++ [68] ++ leBytes4 xs.length) ++ xs.flatten ++ ext := by
                simp
              rw [hb3]
              exact pySlice_at _ _ _ _ _ (by simp [leBytes4_length])
                (by simp only [List.length_append, List.length_cons, List.length_nil,
                  leBytes4_length]; omega)
            rw [e2, hsl2, hflat]
            have hdiv : 8 * xs.length / 8 = xs.length := by omega
            rw [if_pos (by omega : 8 * xs.length % 8 = 0), hdiv]
            rw [takeChunks_flatten xs hallP]
            have hl3 : (name ++ [0] ++ [68] ++ (leBytes4 xs.length ++
                xs.flatten)).length = name.length + 6 + 8 * xs.length := by
              simp only [List.length_append, List.length_cons, List.length_nil,
                leBytes4_length]
              omega
            rw [hl3]
          · exact Option.noConfusion hpm
      | ndarrF4 k =>
        exact Bool.noConfusion (show false = true from hwf)
      | strArr xs =>
        have h2 : ((t == 83) &&
            xs.all (fun s2 => (!s2.contains 0) && validUtf8 s2)) = true := hwf
        rw [Bool.and_eq_true] at h2
        obtain ⟨ht1, hall⟩ := h2
        have ht := beq_nat_eq ht1
        subst ht
        have h3 : (match (match packU32 xs.length with
            | some c => some (c ++ (xs.map (fun s2 => s2 ++ [0])).flatten)
            | none => none) with
          | none => none
          | some payload => some (name ++ [0] ++ [83] ++ payload)) = some s := hser
        split at h3
        · exact Option.noConfusion h3
        · rename_i payload hpm
          obtain rfl : name ++ [0] ++ [83] ++ payload = s := by simpa using h3
          split at hpm
          · rename_i c hc
            obtain rfl : c ++ (xs.map (fun s2 => s2 ++ [0])).flatten = payload := by
              simpa using hpm
            have hxl : xs.length < 4294967296 := by
              rw [packU32] at hc
              split at hc
              · rename_i hlt
                exact hlt
              · exact Option.noConfusion hc
            have hcE : c = leBytes4 xs.length := by
              rw [packU32, if_pos hxl] at hc
              simpa using hc.symm
            subst hcE
            have hcond : ∀ x ∈ xs, (0 : Nat) ∉ x ∧ validUtf8 x = true := by
              intro x hx
              have hbx := List.all_eq_true.mp hall x hx
              rw [Bool.and_eq_true] at hbx
              exact ⟨not_contains_not_mem hbx.1, hbx.2⟩
            refine ⟨by simp, 2, fun ext => ?_⟩
            have hb2 : (name ++ [0] ++ [83] ++ (leBytes4 xs.length ++
                (xs.map (fun s2 => s2 ++ [0])).flatten)) ++ ext =
                name ++ [0] ++ [83] ++ (leBytes4 xs.length ++
                  ((xs.map (fun s2 => s2 ++ [0])).flatten ++ ext)) := by simp
            rw [hb2, component_compBuf 1 name 83 _ hn0 hnv (by omega)]
            unfold componentPayload
            rw [if_neg (by decide), if_neg (by decide), if_neg (by decide), if_neg (by decide),
              if_neg (by decide), if_neg (by decide), if_neg (by decide), if_neg (by decide),
              if_neg (by decide), if_neg (by decide), if_neg (by decide), if_pos rfl]
            have e1 : (((name.length + 2 : Nat)) : Int) + 4 =
                (((name.length + 6 : Nat)) : Int) := by
              push_cast
              ring
            have hsl1 : pySlice (name ++ [0] ++ [83] ++ (leBytes4 xs.length ++
                ((xs.map (fun s2 => s2 ++ [0])).flatten ++ ext)))
                (((name.length + 2 : Nat)) : Int) (((name.length + 6 : Nat)) : Int) =
                leBytes4 xs.length := by
              have hb3 : name ++ [0] ++ [83] ++ (leBytes4 xs.length ++
                  ((xs.map (fun s2 => s2 ++ [0])).flatten ++ ext)) =
                  (name ++ [0] ++ [83]) ++ leBytes4 xs.length ++
                    ((xs.map (fun s2 => s2 ++ [0])).flatten ++ ext) := by simp
              rw [hb3]
              exact pySlice_at _ _ _ _ _ (by simp) (by simp [leBytes4_length])
            rw [e1, hsl1, unpackU32_leBytes4 _ hxl]
            show (match sLoop (name ++ [0] ++ [83] ++ (leBytes4 xs.length ++
                  ((xs.map (fun s2 => s2 ++ [0])).flatten ++ ext))) xs.length
                  (((name.length + 6 : Nat)) : Int) with
              | PRes.ok (items, e) => PRes.ok (name, GVal.strArr items, 83, e)
              | PRes.exn => PRes.exn
              | PRes.spin => PRes.spin) = _
            have e3 : (((name.length + 6 : Nat)) : Int) =
                (((name ++ [0] ++ [83] ++ leBytes4 xs.length).length : Nat) : Int) := by
              simp [leBytes4_length]
            have hb3 : name ++ [0] ++ [83] ++ (leBytes4 xs.length ++
                ((xs.map (fun s2 => s2 ++ [0])).flatten ++ ext)) =
                (name ++ [0] ++ [83] ++ leBytes4 xs.length) ++
                  ((xs.map (fun s2 => s2 ++ [0])).flatten ++ ext) := by simp
            rw [e3, hb3, sLoop_encode xs _ ext hcond]
            show PRes.ok (name, GVal.strArr xs, 83,
              ((((name ++ [0] ++ [83] ++ leBytes4 xs.length).length +
                (xs.map (fun s2 => s2 ++ [0])).flatten.length : Nat)) : Int)) = _
            have hl3 : (name ++ [0] ++ [83] ++ leBytes4 xs.length).length +
                (xs.map (fun s2 => s2 ++ [0])).flatten.length =
                (name ++ [0] ++ [83] ++ (leBytes4 xs.length ++
                  (xs.map (fun s2 => s2 ++ [0])).flatten)).length := by
              simp only [List.length_append, List.length_cons, List.length_nil,
                leBytes4_length]
              omega
            rw [hl3]
          · exact Option.noConfusion hpm
      | objArr os =>
        have h2 : ((t == 79) && wfObjList os) = true := hwf
        rw [Bool.and_eq_true] at h2
        obtain ⟨ht1, hwos⟩ := h2
        have ht := beq_nat_eq ht1
        subst ht
        have hros : rfaObjList os = true := hrfa
        have h3 : (match (match packU32 (GObjList.length os), serializeObjList os with
            | some c, some b2 => some (c ++ b2)
            | _, _ => none) with
          | none => none
          | some payload => some (name ++ [0] ++ [79] ++ payload)) = some s := hser
        split at h3
        · exact Option.noConfusion h3
        · rename_i payload hpm
          obtain rfl : name ++ [0] ++ [79] ++ payload = s := by simpa using h3
          split at hpm
          · rename_i c b2 hc hb2s
            obtain rfl : c ++ b2 = payload := by simpa using hpm
            have hxl : GObjList.length os < 4294967296 := by
              rw [packU32] at hc
              split at hc
              · rename_i hlt
                exact hlt
              · exact Option.noConfusion hc
            have hcE : c = leBytes4 (GObjList.length os) := by
              rw [packU32, if_pos hxl] at hc
              simpa using hc.symm
            subst hcE
            have hszo : sizeObjList os ≤ N := by
              have hh : sizeObjList os + 1 ≤ N + 1 := hsz
              omega
            obtain ⟨F1, hF1⟩ := ihL os b2 hszo hwos hros hb2s
            refine ⟨by simp, F1 + 2, fun ext => ?_⟩
            have hbb : (name ++ [0] ++ [79] ++ (leBytes4 (GObjList.length os) ++ b2)) ++
                ext = name ++ [0] ++ [79] ++ (leBytes4 (GObjList.length os) ++
                  (b2 ++ ext)) := by simp
            rw [hbb, component_compBuf (F1 + 1) name 79 _ hn0 hnv (by omega)]
            unfold componentPayload
            rw [if_neg (by decide), if_neg (by decide), if_neg (by decide), if_neg (by decide),
              if_neg (by decide), if_neg (by decide), if_neg (by decide), if_neg (by decide),
              if_neg (by decide), if_neg (by decide), if_neg (by decide), if_neg (by decide),
              if_pos rfl]
            have e1 : (((name.length + 2 : Nat)) : Int) + 4 =
                (((name.length + 6 : Nat)) : Int) := by
              push_cast
              ring
            have hsl1 : pySlice (name ++ [0] ++ [79] ++ (leBytes4 (GObjList.length os) ++
                (b2 ++ ext)))
                (((name.length + 2 : Nat)) : Int) (((name.length + 6 : Nat)) : Int) =
                leBytes4 (GObjList.length os) := by
              have hb3 : name ++ [0] ++ [79] ++ (leBytes4 (GObjList.length os) ++
                  (b2 ++ ext)) =
                  (name ++ [0] ++ [79]) ++ leBytes4 (GObjList.length os) ++
                    (b2 ++ ext) := by simp
              rw [hb3]
              exact pySlice_at _ _ _ _ _ (by simp) (by simp [leBytes4_length])
            rw [e1, hsl1, unpackU32_leBytes4 _ hxl]
            show (match oLoop F1 (name ++ [0] ++ [79] ++
                  (leBytes4 (GObjList.length os) ++ (b2 ++ ext))) (GObjList.length os)
                  (((name.length + 6 : Nat)) : Int) with
              | PRes.ok (objs, e) => PRes.ok (name, GVal.objArr objs, 79, e)
              | PRes.exn => PRes.exn
              | PRes.spin => PRes.spin) = _
            have e3 : (((name.length + 6 : Nat)) : Int) =
                (((name ++ [0] ++ [79] ++ leBytes4 (GObjList.length os)).length : Nat) :
                  Int) := by
              simp [leBytes4_length]
            have hb3 : name ++ [0] ++ [79] ++ (leBytes4 (GObjList.length os) ++
                (b2 ++ ext)) =
                (name ++ [0] ++ [79] ++ leBytes4 (GObjList.length os)) ++ (b2 ++ ext) := by
              simp
            rw [e3, hb3, hF1 (name ++ [0] ++ [79] ++ leBytes4 (GObjList.length os)) ext]
            show PRes.ok (name, GVal.objArr os, 79,
              ((((name ++ [0] ++ [79] ++ leBytes4 (GObjList.length os)).length +
                b2.length : Nat)) : Int)) = _
            have hl3 : (name ++ [0] ++ [79] ++ leBytes4 (GObjList.length os)).length +
                b2.length =
                (name ++ [0] ++ [79] ++ (leBytes4 (GObjList.length os) ++ b2)).length := by
              simp only [List.length_append, List.length_cons, List.length_nil,
                leBytes4_length]
              omega
            rw [hl3]
          · exact Option.noConfusion hpm
    · -- serializeObjList, then oLoop
      intro os b hsz hwf hrfa hser
      cases os with
      | nil =>
        obtain rfl : b = [] := by simpa [serializeObjList] using hser.symm
        refine ⟨1, fun pre ext => ?_⟩
        show oLoop 1 _ 0 _ = _
        simp [oLoop]
      | cons o rest =>
        have hser2 : (match serialize o, serializeObjList rest with
            | some a, some b2 => some (a ++ b2)
            | _, _ => none) = some b := hser
        split at hser2
        · rename_i s1 b2 hs1 hb2
          obtain rfl : s1 ++ b2 = b := by simpa using hser2
          have hwf2 : (wfObj o && wfObjList rest) = true := hwf
          rw [Bool.and_eq_true] at hwf2
          obtain ⟨hwo, hwrest⟩ := hwf2
          have hrfa2 : (rfaObj o && rfaObjList rest) = true := hrfa
          rw [Bool.and_eq_true] at hrfa2
          obtain ⟨hro, hrrest⟩ := hrfa2
          have hsz2 : sizeObj o + sizeObjList rest + 1 ≤ N + 1 := hsz
          obtain ⟨F1, hF1⟩ := ihO o s1 (by omega) hwo hro hs1
          obtain ⟨F2, hF2⟩ := ihL rest b2 (by omega) hwrest hrrest hb2
          refine ⟨F1 + F2 + 1, fun pre ext => ?_⟩
          show oLoop (F1 + F2 + 1) _ (GObjList.length rest + 1) _ = _
          unfold oLoop
          have htail : pyTail (pre ++ ((s1 ++ b2) ++ ext)) ((pre.length : Nat) : Int) =
              s1 ++ (b2 ++ ext) := by
            rw [pyTail_at pre _ _ rfl]
            simp
          rw [htail]
          have hfb := frombuffer_mono_le (show F1 ≤ F1 + F2 by omega) (hF1 (b2 ++ ext))
          rw [hfb]
          show (match oLoop (F1 + F2) (pre ++ ((s1 ++ b2) ++ ext)) (GObjList.length rest)
              (((pre.length : Nat) : Int) + ((s1.length : Nat) : Int)) with
            | PRes.ok (objs, e) => PRes.ok (GObjList.cons o objs, e)
            | PRes.exn => PRes.exn
            | PRes.spin => PRes.spin) = _
          have hpos : ((pre.length : Nat) : Int) + ((s1.length : Nat) : Int) =
              (((pre ++ s1).length : Nat) : Int) := by
            simp
          have hbuf2 : pre ++ ((s1 ++ b2) ++ ext) = (pre ++ s1) ++ (b2 ++ ext) := by
            simp
          rw [hpos, hbuf2]
          have hol := oLoop_mono_le (show F2 ≤ F1 + F2 by omega) (hF2 (pre ++ s1) ext)
          rw [hol]
          show PRes.ok _ = PRes.ok _
          congr 2
          simp
          ring
        · exact absurd hser2 (by simp)

/-! ## C1: the round trip -/

/-- **C1** counterexample: a tree the decoder itself produced need not
round-trip — it need not even re-serialize. `bufDataFieldQ` stores the
`xres` component of a `GwyDataField` with typecode `'q'` and value `2^40`;
decoding succeeds (components are stored unchecked) and the registry
wrapper rewrites the recorded typecode to `'i'`, so re-serialization hits
`struct.pack('<i', 2^40)` and raises: `serialize` returns `none`, and no
byte string exists for the round trip to compare against. -/
theorem claim_C1_counterexample :
    frombuffer 4 bufDataFieldQ = .ok (objDataFieldQ, 31) ∧
    serialize objDataFieldQ = none := ⟨rfl, rfl⟩

/-- **C1** (amended): for a tree `T` that the decoder produced from a byte
buffer, whose type names stay clear of the registry and are pure ASCII
(`rfaObj`), and which re-serializes at all (`serialize T = some s`),
decoding `s` reproduces `T` exactly — same component names, same insertion
order, same recorded typecodes, and bit-identical values (doubles are raw
8-byte strings in this development, so equality is byte equality) — and
consumes exactly `s.length` bytes. -/
theorem claim_C1_amended (f0 : Nat) (buf : List Nat) (T : GObj) (n : Nat) (s : List Nat)
    (hb : ∀ x ∈ buf, x < 256) (hdec : frombuffer f0 buf = .ok (T, n))
    (hrfa : rfaObj T = true) (hser : serialize T = some s) :
    ∃ fuel, frombuffer fuel s = .ok (T, s.length) := by
  have hwf := (decode_wf f0).1 buf T n hb hdec hrfa
  obtain ⟨F, hF⟩ := (encdec (sizeObj T)).1 T s le_rfl hwf hrfa hser
  refine ⟨F, ?_⟩
  have h := hF []
  rwa [List.append_nil] at h

/-- **C1** witness: the object `A` with single component `x = 5` (`'i'`),
decoded from its own 13-byte serialization, round-trips bit-exactly. -/
theorem claim_C1_witness :
    ∃ fuel, frombuffer fuel [65, 0, 7, 0, 0, 0, 120, 0, 105, 5, 0, 0, 0] =
      .ok (GObj.mk [65] (.cons (.mk [120] (.int 5) (some 105)) .nil), 13) :=
  claim_C1_amended 4 [65, 0, 7, 0, 0, 0, 120, 0, 105, 5, 0, 0, 0]
    (GObj.mk [65] (.cons (.mk [120] (.int 5) (some 105)) .nil)) 13
    [65, 0, 7, 0, 0, 0, 120, 0, 105, 5, 0, 0, 0]
    (by decide) rfl (by decide) rfl
